import Mathlib

/-
  Verification development for the educational-center dashboard
  (single source file `src/vite.config.js`).

  The JavaScript source is shallowly embedded: Firestore documents become
  Lean structures, collections become lists, the Firestore write primitives
  (`addDoc` / `updateDoc` / `deleteDoc` / `setDoc` with merge) become pure
  state transformers, and the React-level operation wrappers
  (`addStudent`, `updateStudent`, `deleteStudent`, `deleteClass`,
  `updateClass`, `addAttendance`) become functions on an explicit state.
  JavaScript numbers are modelled as rationals; Firestore timestamps as
  naturals; document ids as naturals drawn from a fresh-id counter.
-/

namespace Dashboard

/-! ## Data model (spec section 3, mirrored from the objects the source builds) -/

/-- A student document, as written by `AddStudentModal.handleSubmit` /
`EditStudentModal.handleSubmit` (fields `name, phone, email, paid, classId,
studentType`) plus the server-assigned `id`.  A null / empty `classId` is
`none`. -/
structure Student where
  id : Nat
  name : String
  phone : String
  email : String
  paid : Bool
  classId : Option Nat
  studentType : String
  deriving Repr, DecidableEq

/-- The non-id payload of a student write (`newStudent` / `updatedData` in the
source). -/
structure StudentData where
  name : String
  phone : String
  email : String
  paid : Bool
  classId : Option Nat
  studentType : String
  deriving Repr, DecidableEq

/-- A class document: `addClass` creates it with `students: []` and
`instructors: []`; the membership lists hold student / instructor ids. -/
structure ClassDoc where
  id : Nat
  name : String
  description : String
  students : List Nat
  instructors : List Nat
  deriving Repr, DecidableEq

/-- A course document (only `id` and `name` matter to the claims; `price` is
kept for fidelity). -/
structure Course where
  id : Nat
  name : String
  price : Rat
  deriving Repr, DecidableEq

/-- A payment document as used by `ReportsPage` (`amount`, nullable
`courseId`). -/
structure Payment where
  id : Nat
  studentId : Nat
  courseId : Option Nat
  amount : Rat
  deriving Repr, DecidableEq

/-- An expense document as used by `ReportsPage`; a missing / empty category
(falsy in JS) is `none`. -/
structure Expense where
  id : Nat
  description : String
  amount : Rat
  category : Option String
  deriving Repr, DecidableEq

/-! ## Aggregation / reporting (`ReportsPage`, src lines 2168-2250)

The source computes these with `Array.prototype.reduce` over the live
collections; plain-object accumulators (`acc[key] = (acc[key]||0) + v`)
are embedded as association lists updated in place on the first matching
key (JS objects keep insertion order and hold each key once). -/

/-- `payments.reduce((sum, payment) => sum + payment.amount, 0)` (line 2172). -/
def totalRevenue (payments : List Payment) : Rat :=
  payments.foldl (fun sum payment => sum + payment.amount) 0

/-- `expenses.reduce((sum, expense) => sum + expense.amount, 0)` (line 2173). -/
def totalExpenses (expenses : List Expense) : Rat :=
  expenses.foldl (fun sum expense => sum + expense.amount) 0

/-- `netIncome = totalRevenue - totalExpenses` (line 2174). -/
def netIncome (payments : List Payment) (expenses : List Expense) : Rat :=
  totalRevenue payments - totalExpenses expenses

/-- `acc[key] = (acc[key] || 0) + amt` on a JS object accumulator: update the
(unique) existing entry for `key`, or append a fresh one. -/
def bump : List (String × Rat) → String → Rat → List (String × Rat)
  | [], key, amt => [(key, amt)]
  | (k, v) :: rest, key, amt =>
      if k = key then (k, v + amt) :: rest else (k, v) :: bump rest key amt

/-- Bucket label used by the source for an expense with a falsy category
(line 2189: `expense.category || 'غير مصنف'`, i.e. "uncategorized"). -/
def uncategorizedLabel : String := "غير مصنف"

/-- `expensesByCategory` (lines 2188-2192): group-sum of `amount` keyed by
`category`, missing category bucketed under `uncategorizedLabel`. -/
def expensesByCategory (expenses : List Expense) : List (String × Rat) :=
  expenses.foldl
    (fun acc expense => bump acc (expense.category.getD uncategorizedLabel) expense.amount) []

/-- `revenueByCourse` (lines 2195-2203): group-sum of payment `amount` keyed by
the resolved course name; payments with a null `courseId` or whose `courseId`
matches no course are skipped. -/
def revenueByCourse (payments : List Payment) (courses : List Course) : List (String × Rat) :=
  payments.foldl
    (fun acc payment =>
      match payment.courseId with
      | none => acc
      | some cid =>
          match courses.find? (fun c => c.id = cid) with
          | none => acc
          | some course => bump acc course.name payment.amount)
    []

/-- Sum of the values of a grouped accumulator (`Object.values(acc)` summed). -/
def valuesSum (l : List (String × Rat)) : Rat :=
  (l.map Prod.snd).sum

/-- Whether a payment's `courseId` is non-null and resolves to a course in the
collection (the guard of lines 2196-2198). -/
def resolvesCourse (courses : List Course) (payment : Payment) : Bool :=
  match payment.courseId with
  | none => false
  | some cid => (courses.find? (fun c => c.id = cid)).isSome

/-- Value stored under `key` in a grouped accumulator (`acc[key] || 0`). -/
def lookupVal (l : List (String × Rat)) (key : String) : Rat :=
  match l.find? (fun kv => kv.1 = key) with
  | some kv => kv.2
  | none => 0

/-- Sample data used to instantiate hypotheses of the claims at concrete
inputs. -/
def samplePayments : List Payment :=
  [{ id := 10, studentId := 0, courseId := some 1, amount := 250 },
   { id := 11, studentId := 0, courseId := none, amount := 100 }]

/-- Sample course collection for instantiating claims. -/
def sampleCourses : List Course :=
  [{ id := 1, name := "math", price := 250 }]

/-! ## CSV export (`handleExportStudentsByClass`, src lines 2215-2250) -/

/-- One CSV row pushed by `handleExportStudentsByClass` (lines 2231-2237):
student name, phone, email, paid-status label and class name. -/
structure ExportRow where
  studentName : String
  phone : String
  email : String
  paidStatus : String
  className : String
  deriving Repr, DecidableEq

/-- The row object built for `student` under `selectedClass` (lines 2231-2237;
`student.email || ''` is the identity on the stored string field). -/
def exportRowOf (student : Student) (selectedClass : ClassDoc) : ExportRow :=
  { studentName := student.name
    phone := student.phone
    email := student.email
    paidStatus := if student.paid then "مدفوع" else "غير مدفوع"
    className := selectedClass.name }

/-- The inner loop of `handleExportStudentsByClass` over one selected class
(lines 2227-2241).  The accumulator pairs each pushed row with the student id
it was pushed for: the source's `exportedStudents` set is the list of first
components and `dataToExport` the list of second components — both are mutated
in lockstep inside the same `if (student)` guard. -/
def exportStep (students : List Student) (selectedClass : ClassDoc)
    (acc : List (Nat × ExportRow)) (studentId : Nat) : List (Nat × ExportRow) :=
  if (acc.map Prod.fst).contains studentId then acc
  else
    match students.find? (fun s => s.id = studentId) with
    | none => acc
    | some student => acc ++ [(studentId, exportRowOf student selectedClass)]

/-- Fold of `exportStep` over one class's roster. -/
def exportClassStudents (students : List Student) (selectedClass : ClassDoc)
    (acc : List (Nat × ExportRow)) : List (Nat × ExportRow) :=
  selectedClass.students.foldl (exportStep students selectedClass) acc

/-- One iteration of the outer `selectedClassIds.forEach` (lines 2224-2226):
skip a class id matching no class, else run the inner loop over its roster. -/
def exportOuterStep (students : List Student) (classes : List ClassDoc)
    (acc : List (Nat × ExportRow)) (classId : Nat) : List (Nat × ExportRow) :=
  match classes.find? (fun cls => cls.id = classId) with
  | none => acc
  | some selectedClass => exportClassStudents students selectedClass acc

/-- `handleExportStudentsByClass` (lines 2215-2243): iterate the selected class
ids and collect one row per newly seen student id across all selected
classes. -/
def handleExportStudentsByClass (selectedClassIds : List Nat) (classes : List ClassDoc)
    (students : List Student) : List (Nat × ExportRow) :=
  selectedClassIds.foldl (exportOuterStep students classes) []

/-- What claim C9 requires of an emitted row: it is the row of a student
present in the collection — carrying that student's name, phone, email and
paid status — labelled with the name of a selected class. -/
def RowOk (students : List Student) (classes : List ClassDoc) (selectedClassIds : List Nat)
    (pr : Nat × ExportRow) : Prop :=
  (∃ st ∈ students, st.id = pr.1
      ∧ pr.2.studentName = st.name ∧ pr.2.phone = st.phone ∧ pr.2.email = st.email
      ∧ pr.2.paidStatus = (if st.paid then "مدفوع" else "غير مدفوع"))
    ∧ ∃ cls ∈ classes, cls.id ∈ selectedClassIds ∧ pr.2.className = cls.name

/-- Sample students collection for instantiating claims. -/
def sampleStudents : List Student :=
  [{ id := 0, name := "sara", phone := "0912345678", email := "", paid := true,
     classId := some 5, studentType := "local" },
   { id := 1, name := "omar", phone := "0923456789", email := "omar@mail.com", paid := false,
     classId := some 6, studentType := "local" }]

/-- Sample classes collection for instantiating claims: student 0 belongs to
both classes. -/
def sampleClasses : List ClassDoc :=
  [{ id := 5, name := "alpha", description := "", students := [0], instructors := [] },
   { id := 6, name := "beta", description := "", students := [0, 1], instructors := [] }]

/-! ## Attendance upsert (`addAttendance`, src lines 2871-2891)

The composite doc id (line 2876) joins the three ids and the calendar day
with `-`.  Timestamps are naturals (seconds); the calendar day of a date is
`date / 86400`, modelling `date.toISOString().split('T')[0]`. -/

/-- Input to `addAttendance`: the record built by `handleSubmitAttendance`
(lines 2482-2488). -/
structure AttInput where
  studentId : Nat
  classId : Nat
  instructorId : Nat
  date : Nat
  status : String
  deriving Repr, DecidableEq

/-- Calendar day of a timestamp. -/
def dayOf (t : Nat) : Nat := t / 86400

/-- The stored attendance document: the submitted fields plus the `createdAt`
and `updatedAt` stamps the source always includes in the payload
(lines 2880-2885). -/
structure AttRecord where
  studentId : Nat
  classId : Nat
  instructorId : Nat
  date : Nat
  status : String
  createdAt : Nat
  updatedAt : Nat
  deriving Repr, DecidableEq

/-- `attendanceDocId` (line 2876). -/
def attDocId (r : AttInput) : String :=
  toString r.studentId ++ "-" ++ toString r.classId ++ "-" ++ toString r.instructorId
    ++ "-" ++ toString (dayOf r.date)

/-- The composite key recomputed from a stored record's own fields. -/
def keyOf (rec : AttRecord) : String :=
  toString rec.studentId ++ "-" ++ toString rec.classId ++ "-" ++ toString rec.instructorId
    ++ "-" ++ toString (dayOf rec.date)

/-- The record written by `addAttendance` at clock time `now` (the payload of
lines 2880-2885: all submitted fields plus `createdAt` and `updatedAt`, both
freshly stamped on every call). -/
def attPayload (now : Nat) (r : AttInput) : AttRecord :=
  { studentId := r.studentId, classId := r.classId, instructorId := r.instructorId,
    date := r.date, status := r.status, createdAt := now, updatedAt := now }

/-- `setDoc(ref, payload, {merge: true})` where the payload names every field
of the document: replace the document stored at `docId` if present, else
create it. -/
def setAttendanceDoc (store : List (String × AttRecord)) (docId : String)
    (rec : AttRecord) : List (String × AttRecord) :=
  if store.any (fun kv => kv.1 = docId) then
    store.map (fun kv => if kv.1 = docId then (docId, rec) else kv)
  else
    store ++ [(docId, rec)]

/-- `addAttendance` (lines 2871-2891) at clock time `now`. -/
def addAttendanceRun (now : Nat) (r : AttInput) (store : List (String × AttRecord)) :
    List (String × AttRecord) :=
  setAttendanceDoc store (attDocId r) (attPayload now r)

/-- Whether a stored record carries the same (student, class, instructor, day)
composite key as a submitted input. -/
def sameKeyB (rec : AttRecord) (r : AttInput) : Bool :=
  rec.studentId == r.studentId && rec.classId == r.classId
    && rec.instructorId == r.instructorId && dayOf rec.date == dayOf r.date

/-- Attendance-store well-formedness: doc ids are unique, and each doc id is
the composite key of its own record — the shape every store reachable through
`addAttendanceRun` has. -/
def AttWF (store : List (String × AttRecord)) : Prop :=
  (store.map Prod.fst).Nodup ∧ ∀ kv ∈ store, kv.1 = keyOf kv.2

/-- Sample attendance inputs sharing the (student, class, instructor, day) key
but with different times of day and different statuses. -/
def sampleAtt1 : AttInput :=
  { studentId := 3, classId := 5, instructorId := 7, date := 86400 * 20 + 100,
    status := "حاضر" }

/-- Second submission for the same key with another status. -/
def sampleAtt2 : AttInput :=
  { studentId := 3, classId := 5, instructorId := 7, date := 86400 * 20 + 5000,
    status := "غائب" }

/-! ## Student / class relationship maintenance (src lines 2747-2816)

The relevant store state is the `students` and `classes` collections plus a
fresh-id counter modelling Firestore's unique id generation for `addDoc`.
`updateDoc` merges the given fields into an existing document and fails
(caught at lines 172-175, store unchanged) when the document does not exist;
`deleteDoc` of a missing document is a no-op.  The wrappers read the React
snapshot of the collections and issue their writes sequentially (each
`await`ed); the embedding threads the store through those writes, reading
untouched documents from the snapshot exactly as the source does. -/

/-- The mutable store state seen by the student-path operations. -/
structure DashState where
  students : List Student
  classes : List ClassDoc
  nextId : Nat
  deriving Repr, DecidableEq

/-- A student document assembled from a server-assigned id and a payload. -/
def mkStudent (id : Nat) (d : StudentData) : Student :=
  { id := id, name := d.name, phone := d.phone, email := d.email, paid := d.paid,
    classId := d.classId, studentType := d.studentType }

/-- `updateDoc` on the students collection with a full student payload
(the student-path always submits every field): overwrite the fields of the
document with matching id, if any. -/
def updateStudentDoc (students : List Student) (sid : Nat) (d : StudentData) :
    List Student :=
  students.map (fun st => if st.id = sid then mkStudent sid d else st)

/-- `updateClassDoc(classId, {students: l})`: overwrite the `students` field
of the class document with matching id, if any. -/
def updateClassStudentsDoc (classes : List ClassDoc) (cid : Nat) (l : List Nat) :
    List ClassDoc :=
  classes.map (fun c => if c.id = cid then { c with students := l } else c)

/-- `addStudent` (lines 2747-2756): create the student (fresh id), then if a
class is referenced and exists, append the new id to that class's roster. -/
def addStudentRun (newStudent : StudentData) (s : DashState) : DashState :=
  let studentId := s.nextId
  let s1 : DashState :=
    { s with students := s.students ++ [mkStudent studentId newStudent],
             nextId := s.nextId + 1 }
  match newStudent.classId with
  | none => s1
  | some cid =>
      match s.classes.find? (fun cls => cls.id = cid) with
      | none => s1
      | some currentClass =>
          { s1 with classes :=
              updateClassStudentsDoc s1.classes cid (currentClass.students ++ [studentId]) }

/-- `updateStudent` (lines 2758-2783): write the student document, and when
the class reference changed, remove the id from the old class's roster (if
that class exists) and append it to the new class's roster (if that class
exists), both rosters being read from the snapshot. -/
def updateStudentRun (studentId : Nat) (updatedData : StudentData) (s : DashState) :
    DashState :=
  let oldStudent := s.students.find? (fun st => st.id = studentId)
  let oldClassId := oldStudent.bind Student.classId
  let newClassId := updatedData.classId
  let s1 : DashState :=
    { s with students := updateStudentDoc s.students studentId updatedData }
  if oldClassId = newClassId then s1
  else
    let s2 : DashState :=
      match oldClassId with
      | none => s1
      | some ocid =>
          match s.classes.find? (fun cls => cls.id = ocid) with
          | none => s1
          | some oldClass =>
              { s1 with classes :=
                  updateClassStudentsDoc s1.classes ocid ((oldClass.students).filter (fun i => i ≠ studentId)) }
    match newClassId with
    | none => s2
    | some ncid =>
        match s.classes.find? (fun cls => cls.id = ncid) with
        | none => s2
        | some newClass =>
            { s2 with classes :=
                updateClassStudentsDoc s2.classes ncid (newClass.students ++ [studentId]) }

/-- `deleteStudent` (lines 2785-2798): delete the student document, then if it
referenced an existing class, remove its id from that class's roster. -/
def deleteStudentRun (studentId : Nat) (s : DashState) : DashState :=
  let studentToDelete := s.students.find? (fun st => st.id = studentId)
  let classIdOfStudent := studentToDelete.bind Student.classId
  let s1 : DashState :=
    { s with students := s.students.filter (fun st => st.id ≠ studentId) }
  match classIdOfStudent with
  | none => s1
  | some cid =>
      match s.classes.find? (fun cls => cls.id = cid) with
      | none => s1
      | some currentClass =>
          { s1 with classes :=
              updateClassStudentsDoc s1.classes cid ((currentClass.students).filter (fun i => i ≠ studentId)) }

/-- The per-student clearing loop of `deleteClass` (lines 2811-2814): every
student whose `classId` is the class being deleted is rewritten (through
`updateStudentDoc`, keyed by its unique id) with `classId: null`. -/
def clearClassRefs (cid : Nat) (students : List Student) : List Student :=
  students.map (fun st => if st.classId = some cid then { st with classId := none } else st)

/-- `deleteClassDoc`: remove the class document. -/
def deleteClassDocRun (cid : Nat) (classes : List ClassDoc) : List ClassDoc :=
  classes.filter (fun cls => cls.id ≠ cid)

/-- `deleteClass` (lines 2809-2816): first clear the per-student references
(all awaited), then delete the class document. -/
def deleteClassRun (cid : Nat) (s : DashState) : DashState :=
  let s1 : DashState := { s with students := clearClassRefs cid s.students }
  { s1 with classes := deleteClassDocRun cid s1.classes }

/-- `updateClass` (lines 2805-2807) as invoked by
`AssignStudentsToClassModal.handleSubmit` (lines 856-860) with payload
`{students: selectedStudentIds}`. -/
def updateClassRun (classId : Nat) (selectedStudentIds : List Nat) (s : DashState) :
    DashState :=
  { s with classes := updateClassStudentsDoc s.classes classId selectedStudentIds }

/-- The student-path operations of spec section 4.2 (plus `deleteClass`). -/
inductive Op where
  | addStudent (data : StudentData)
  | updateStudent (id : Nat) (data : StudentData)
  | deleteStudent (id : Nat)
  | deleteClass (id : Nat)
  deriving Repr, DecidableEq

/-- Run one operation. -/
def runOp (s : DashState) : Op → DashState
  | .addStudent d => addStudentRun d s
  | .updateStudent i d => updateStudentRun i d s
  | .deleteStudent i => deleteStudentRun i s
  | .deleteClass i => deleteClassRun i s

/-- Run a sequence of operations. -/
def runOps (s : DashState) : List Op → DashState
  | [] => s
  | op :: rest => runOps (runOp s op) rest

/-- Whether an operation can be issued from the UI in state `s`:
`updateStudent` is only ever invoked from the edit modal of a listed
(existing) student. -/
def validOp (s : DashState) : Op → Bool
  | .updateStudent i _ => s.students.any (fun st => st.id = i)
  | _ => true

/-- Whether a whole operation sequence is UI-reachable from `s`. -/
def validOps (s : DashState) : List Op → Bool
  | [] => true
  | op :: rest => validOp s op && validOps (runOp s op) rest

/-- Whether an operation is one of the three student-path operations
(`addStudent` / `updateStudent` / `deleteStudent`). -/
def isStudentOp : Op → Bool
  | .deleteClass _ => false
  | _ => true

/-- The bidirectional student↔class agreement of spec section 3 / claim C1:
a student's `classId` points at a class iff that class's roster holds the
student's id. -/
def Agrees (s : DashState) : Prop :=
  ∀ st ∈ s.students, ∀ c ∈ s.classes, (st.classId = some c.id ↔ st.id ∈ c.students)

/-- Consistency of a store state: unique student and class document ids, ids
below the fresh-id counter, duplicate-free class rosters whose members are
existing students, and the bidirectional agreement. -/
def Consistent (s : DashState) : Prop :=
  (s.students.map Student.id).Nodup
    ∧ (s.classes.map ClassDoc.id).Nodup
    ∧ (∀ st ∈ s.students, st.id < s.nextId)
    ∧ (∀ c ∈ s.classes, c.students.Nodup)
    ∧ (∀ c ∈ s.classes, ∀ i ∈ c.students, ∃ st ∈ s.students, st.id = i)
    ∧ Agrees s

instance decidableAgrees (s : DashState) : Decidable (Agrees s) := by
  unfold Agrees
  infer_instance

instance decidableConsistent (s : DashState) : Decidable (Consistent s) := by
  unfold Consistent
  infer_instance

/-- Interface satisfied by the classes collection after the roster-removal
step of `updateStudent` for student id `sid`: class ids unchanged, `sid` in no
roster, and every roster duplicate-free, included in its original class's
roster, and agreeing with it on every other id. -/
def RemovedFrom (s : DashState) (sid : Nat) (classesR : List ClassDoc) : Prop :=
  classesR.map ClassDoc.id = s.classes.map ClassDoc.id
    ∧ (∀ c' ∈ classesR, sid ∉ c'.students)
    ∧ ∀ c' ∈ classesR, ∃ c ∈ s.classes, c.id = c'.id ∧ c'.students.Nodup
        ∧ (∀ i ∈ c'.students, i ∈ c.students)
        ∧ (∀ j, j ≠ sid → (j ∈ c'.students ↔ j ∈ c.students))

/-- Sample initial state for the state-machine claims: one empty class, no
students. -/
def sampleState : DashState :=
  { students := [],
    classes := [{ id := 5, name := "alpha", description := "", students := [],
                  instructors := [] }],
    nextId := 0 }

/-- Sample operation sequence: add a student into class 5, move them out of
it, delete them. -/
def sampleOps : List Op :=
  [Op.addStudent { name := "sara", phone := "0912345678", email := "", paid := false,
                   classId := some 5, studentType := "local" },
   Op.updateStudent 0 { name := "sara", phone := "0912345678", email := "", paid := true,
                        classId := none, studentType := "local" },
   Op.deleteStudent 0]

/-! ### Basic sum lemmas -/

theorem totalRevenue_eq_sum (payments : List Payment) :
    totalRevenue payments = (payments.map Payment.amount).sum := by
  suffices h : ∀ (a : Rat),
      payments.foldl (fun sum payment => sum + payment.amount) a
        = a + (payments.map Payment.amount).sum by
    have := h 0
    simpa [totalRevenue] using this
  induction payments with
  | nil => intro a; simp
  | cons p ps ih =>
      intro a
      simp [List.foldl_cons, ih, add_assoc]

theorem totalExpenses_eq_sum (expenses : List Expense) :
    totalExpenses expenses = (expenses.map Expense.amount).sum := by
  suffices h : ∀ (a : Rat),
      expenses.foldl (fun sum expense => sum + expense.amount) a
        = a + (expenses.map Expense.amount).sum by
    have := h 0
    simpa [totalExpenses] using this
  induction expenses with
  | nil => intro a; simp
  | cons e es ih =>
      intro a
      simp [List.foldl_cons, ih, add_assoc]

theorem valuesSum_bump (acc : List (String × Rat)) (key : String) (amt : Rat) :
    valuesSum (bump acc key amt) = valuesSum acc + amt := by
  induction acc with
  | nil => simp [bump, valuesSum]
  | cons kv rest ih =>
      obtain ⟨k, v⟩ := kv
      by_cases h : k = key
      · subst h
        simp [bump, valuesSum]
        ring
      · simp [bump, h, valuesSum] at ih ⊢
        rw [ih]
        ring

theorem lookupVal_bump (acc : List (String × Rat)) (k key : String) (amt : Rat) :
    lookupVal (bump acc k amt) key
      = lookupVal acc key + (if k = key then amt else 0) := by
  induction acc with
  | nil =>
      by_cases h : k = key
      · subst h; simp [bump, lookupVal]
      · simp [bump, lookupVal, h, List.find?]
  | cons kv rest ih =>
      obtain ⟨k', v⟩ := kv
      by_cases hk : k' = k
      · subst hk
        by_cases hkey : k' = key
        · subst hkey; simp [bump, lookupVal, List.find?]
        · simp [bump, lookupVal, List.find?, hkey]
      · by_cases hkey : k' = key
        · subst hkey
          have hne : ¬ k = k' := fun h => hk h.symm
          simp [bump, hk, lookupVal, List.find?, hne]
        · simp [bump, hk, lookupVal, List.find?, hkey] at ih ⊢
          exact ih

theorem expensesByCategory_foldl_sum (es : List Expense) :
    ∀ acc : List (String × Rat),
      valuesSum (es.foldl
          (fun acc e => bump acc (e.category.getD uncategorizedLabel) e.amount) acc)
        = valuesSum acc + (es.map Expense.amount).sum := by
  induction es with
  | nil => intro acc; simp
  | cons e es ih =>
      intro acc
      rw [List.foldl_cons, ih, valuesSum_bump]
      simp
      ring

theorem expensesByCategory_foldl_lookup (es : List Expense) (key : String) :
    ∀ acc : List (String × Rat),
      lookupVal (es.foldl
          (fun acc e => bump acc (e.category.getD uncategorizedLabel) e.amount) acc) key
        = lookupVal acc key
          + ((es.filter (fun e => e.category.getD uncategorizedLabel = key)).map
              Expense.amount).sum := by
  induction es with
  | nil => intro acc; simp
  | cons e es ih =>
      intro acc
      rw [List.foldl_cons, ih, lookupVal_bump]
      by_cases h : e.category.getD uncategorizedLabel = key
      · simp [h]
        ring
      · simp [h]

/-- Claim C8: the values of `expensesByCategory` sum exactly to
`totalExpenses`, and the bucket stored under any `key` is exactly the sum of
the amounts of the expenses assigned to that bucket (an expense's bucket being
its category, or the "uncategorized" label when the category is missing) — so
every expense lands in exactly one bucket. -/
theorem expensesByCategory_partition (expenses : List Expense) (key : String) :
    valuesSum (expensesByCategory expenses) = totalExpenses expenses
      ∧ lookupVal (expensesByCategory expenses) key
          = ((expenses.filter
                (fun e => e.category.getD uncategorizedLabel = key)).map
              Expense.amount).sum := by
  constructor
  · rw [expensesByCategory, expensesByCategory_foldl_sum, totalExpenses_eq_sum]
    simp [valuesSum]
  · rw [expensesByCategory, expensesByCategory_foldl_lookup]
    simp [lookupVal]

/-- Claim C6: `netIncome` equals `totalRevenue` minus `totalExpenses` for every
payment and expense list, and all three are `0` on empty lists. -/
theorem netIncome_eq_revenue_sub_expenses (payments : List Payment) (expenses : List Expense) :
    netIncome payments expenses = totalRevenue payments - totalExpenses expenses
      ∧ totalRevenue [] = 0 ∧ totalExpenses ([] : List Expense) = 0
      ∧ netIncome [] [] = 0 := by
  exact ⟨rfl, rfl, rfl, by simp [netIncome, totalRevenue, totalExpenses]⟩

theorem revenueByCourse_foldl_sum (payments : List Payment) (courses : List Course) :
    ∀ acc : List (String × Rat),
      valuesSum (payments.foldl
          (fun acc payment =>
            match payment.courseId with
            | none => acc
            | some cid =>
                match courses.find? (fun c => c.id = cid) with
                | none => acc
                | some course => bump acc course.name payment.amount) acc)
        = valuesSum acc
          + ((payments.filter (resolvesCourse courses)).map Payment.amount).sum := by
  induction payments with
  | nil => intro acc; simp
  | cons p ps ih =>
      intro acc
      rw [List.foldl_cons, ih]
      cases hcid : p.courseId with
      | none => simp [resolvesCourse, hcid, List.filter_cons]
      | some cid =>
          cases hfind : courses.find? (fun c => c.id = cid) with
          | none => simp [resolvesCourse, hcid, hfind, List.filter_cons]
          | some course =>
              simp [resolvesCourse, hcid, hfind, List.filter_cons, valuesSum_bump]
              ring

/-- Claim C7: when every payment amount is positive, the values of
`revenueByCourse` sum to at most `totalRevenue`, with equality only when every
payment has a non-null `courseId` resolving to a course; unresolvable payments
contribute to no bucket (the bucketed sum ranges over exactly the resolvable
payments). -/
theorem revenueByCourse_le_totalRevenue (payments : List Payment) (courses : List Course)
    (hpos : ∀ p ∈ payments, 0 < p.amount) :
    valuesSum (revenueByCourse payments courses)
        = ((payments.filter (resolvesCourse courses)).map Payment.amount).sum
      ∧ valuesSum (revenueByCourse payments courses) ≤ totalRevenue payments
      ∧ (valuesSum (revenueByCourse payments courses) = totalRevenue payments →
          ∀ p ∈ payments, resolvesCourse courses p = true) := by
  have hval : valuesSum (revenueByCourse payments courses)
      = ((payments.filter (resolvesCourse courses)).map Payment.amount).sum := by
    rw [revenueByCourse, revenueByCourse_foldl_sum]
    simp [valuesSum]
  have hsplit : totalRevenue payments
      = ((payments.filter (resolvesCourse courses)).map Payment.amount).sum
        + ((payments.filter (fun p => !resolvesCourse courses p)).map Payment.amount).sum := by
    rw [totalRevenue_eq_sum]
    have hperm := (List.filter_append_perm (resolvesCourse courses) payments).map Payment.amount
    rw [← hperm.sum_eq, List.map_append, List.sum_append]
  have hnn : (0 : Rat)
      ≤ ((payments.filter (fun p => !resolvesCourse courses p)).map Payment.amount).sum := by
    apply List.sum_nonneg
    intro x hx
    simp only [List.mem_map] at hx
    obtain ⟨p, hp, rfl⟩ := hx
    exact le_of_lt (hpos p (List.mem_of_mem_filter hp))
  refine ⟨hval, ?_, ?_⟩
  · rw [hval, hsplit]
    linarith
  · intro heq p hp
    by_contra hres
    have hmem : p ∈ payments.filter (fun q => !resolvesCourse courses q) := by
      rw [List.mem_filter]
      exact ⟨hp, by simp [hres]⟩
    have hx : p.amount
        ∈ (payments.filter (fun q => !resolvesCourse courses q)).map Payment.amount :=
      List.mem_map_of_mem _ hmem
    have hle : p.amount
        ≤ ((payments.filter (fun q => !resolvesCourse courses q)).map Payment.amount).sum := by
      apply List.single_le_sum ?_ _ hx
      intro x hx'
      simp only [List.mem_map] at hx'
      obtain ⟨q, hq, rfl⟩ := hx'
      exact le_of_lt (hpos q (List.mem_of_mem_filter hq))
    have hppos : 0 < p.amount := hpos p hp
    rw [hval] at heq
    linarith

/-- Witness for claim C7: the positivity hypothesis holds at `samplePayments`,
and the theorem applies there. -/
theorem revenueByCourse_le_totalRevenue_witness :
    (∀ p ∈ samplePayments, 0 < p.amount)
      ∧ (valuesSum (revenueByCourse samplePayments sampleCourses)
            = ((samplePayments.filter (resolvesCourse sampleCourses)).map Payment.amount).sum
          ∧ valuesSum (revenueByCourse samplePayments sampleCourses)
              ≤ totalRevenue samplePayments
          ∧ (valuesSum (revenueByCourse samplePayments sampleCourses)
                = totalRevenue samplePayments →
              ∀ p ∈ samplePayments, resolvesCourse sampleCourses p = true)) :=
  ⟨by norm_num [samplePayments],
   revenueByCourse_le_totalRevenue samplePayments sampleCourses
     (by norm_num [samplePayments])⟩

/-! ### CSV export lemmas (claim C9) -/

theorem foldl_mem_mono {α β : Type} (f : List β → α → List β)
    (hf : ∀ acc x, ∀ b ∈ acc, b ∈ f acc x) :
    ∀ (l : List α) (acc : List β), ∀ b ∈ acc, b ∈ l.foldl f acc := by
  intro l
  induction l with
  | nil => intro acc b hb; simpa using hb
  | cons x xs ih =>
      intro acc b hb
      rw [List.foldl_cons]
      exact ih (f acc x) b (hf acc x b hb)

theorem exportStep_mem_mono (students : List Student) (selectedClass : ClassDoc)
    (acc : List (Nat × ExportRow)) (sid : Nat) :
    ∀ pr ∈ acc, pr ∈ exportStep students selectedClass acc sid := by
  intro pr hpr
  rw [exportStep]
  cases hc : (acc.map Prod.fst).contains sid with
  | true => simpa [hc] using hpr
  | false =>
      cases hfind : students.find? (fun s => s.id = sid) with
      | none => simpa [hc, hfind] using hpr
      | some st => simp [hc, hfind, List.mem_append, hpr]

theorem exportClassStudents_mem_mono (students : List Student) (selectedClass : ClassDoc)
    (acc : List (Nat × ExportRow)) :
    ∀ pr ∈ acc, pr ∈ exportClassStudents students selectedClass acc :=
  foldl_mem_mono _ (fun acc sid => exportStep_mem_mono students selectedClass acc sid)
    selectedClass.students acc

theorem exportClassStudents_id_mono (students : List Student) (selectedClass : ClassDoc)
    (acc : List (Nat × ExportRow)) (i : Nat) (hi : i ∈ acc.map Prod.fst) :
    i ∈ (exportClassStudents students selectedClass acc).map Prod.fst := by
  simp only [List.mem_map] at hi ⊢
  obtain ⟨pr, hpr, hfst⟩ := hi
  exact ⟨pr, exportClassStudents_mem_mono students selectedClass acc pr hpr, hfst⟩

theorem exportStep_nodup (students : List Student) (selectedClass : ClassDoc)
    (acc : List (Nat × ExportRow)) (sid : Nat) (h : (acc.map Prod.fst).Nodup) :
    ((exportStep students selectedClass acc sid).map Prod.fst).Nodup := by
  rw [exportStep]
  cases hc : (acc.map Prod.fst).contains sid with
  | true => simpa [hc] using h
  | false =>
      cases hfind : students.find? (fun s => s.id = sid) with
      | none => simpa [hc, hfind] using h
      | some st =>
          have hnotmem : sid ∉ acc.map Prod.fst := by
            rw [List.contains_eq_any_beq] at hc
            intro hmem
            have : (acc.map Prod.fst).any (sid == ·) = true := by
              simp only [List.any_eq_true, beq_iff_eq]
              exact ⟨sid, hmem, rfl⟩
            rw [this] at hc
            cases hc
          simp only [hc, hfind, Bool.false_eq_true, if_false]
          rw [List.map_append, List.nodup_append]
          refine ⟨h, by simp, ?_⟩
          intro a ha hb
          simp only [List.map_cons, List.map_nil, List.mem_singleton] at hb
          subst hb
          exact hnotmem ha

theorem exportFold_nodup (students : List Student) (selectedClass : ClassDoc) :
    ∀ (l : List Nat) (acc : List (Nat × ExportRow)), (acc.map Prod.fst).Nodup →
      ((l.foldl (exportStep students selectedClass) acc).map Prod.fst).Nodup := by
  intro l
  induction l with
  | nil => intro acc h; simpa using h
  | cons sid rest ih =>
      intro acc h
      rw [List.foldl_cons]
      exact ih _ (exportStep_nodup students selectedClass acc sid h)

theorem exportClassStudents_nodup (students : List Student) (selectedClass : ClassDoc)
    (acc : List (Nat × ExportRow)) (h : (acc.map Prod.fst).Nodup) :
    ((exportClassStudents students selectedClass acc).map Prod.fst).Nodup :=
  exportFold_nodup students selectedClass selectedClass.students acc h

theorem contains_true_mem {l : List Nat} {a : Nat} (h : l.contains a = true) : a ∈ l := by
  rw [List.contains_eq_any_beq] at h
  simp only [List.any_eq_true, beq_iff_eq] at h
  obtain ⟨x, hx, heq⟩ := h
  subst heq
  exact hx

theorem exportStep_rowOk (students : List Student) (classes : List ClassDoc)
    (selectedClassIds : List Nat) (selectedClass : ClassDoc)
    (hclsmem : selectedClass ∈ classes) (hclssel : selectedClass.id ∈ selectedClassIds)
    (acc : List (Nat × ExportRow)) (sid : Nat)
    (hacc : ∀ pr ∈ acc, RowOk students classes selectedClassIds pr) :
    ∀ pr ∈ exportStep students selectedClass acc sid,
      RowOk students classes selectedClassIds pr := by
  intro pr hpr
  rw [exportStep] at hpr
  cases hc : (acc.map Prod.fst).contains sid with
  | true =>
      rw [hc] at hpr
      exact hacc pr (by simpa using hpr)
  | false =>
      rw [hc] at hpr
      cases hfind : students.find? (fun s => s.id = sid) with
      | none =>
          rw [hfind] at hpr
          exact hacc pr (by simpa using hpr)
      | some st =>
          rw [hfind] at hpr
          simp only [Bool.false_eq_true, if_false, List.mem_append,
            List.mem_singleton] at hpr
          rcases hpr with hold | hnew
          · exact hacc pr hold
          · subst hnew
            have hstmem : st ∈ students := List.mem_of_find?_eq_some hfind
            have hstid : st.id = sid := by simpa using List.find?_some hfind
            exact ⟨⟨st, hstmem, hstid, rfl, rfl, rfl, rfl⟩,
                   ⟨selectedClass, hclsmem, hclssel, rfl⟩⟩

theorem exportFold_rowOk (students : List Student) (classes : List ClassDoc)
    (selectedClassIds : List Nat) (selectedClass : ClassDoc)
    (hclsmem : selectedClass ∈ classes) (hclssel : selectedClass.id ∈ selectedClassIds) :
    ∀ (l : List Nat) (acc : List (Nat × ExportRow)),
      (∀ pr ∈ acc, RowOk students classes selectedClassIds pr) →
      ∀ pr ∈ l.foldl (exportStep students selectedClass) acc,
        RowOk students classes selectedClassIds pr := by
  intro l
  induction l with
  | nil => intro acc hacc pr hpr; exact hacc pr (by simpa using hpr)
  | cons sid rest ih =>
      intro acc hacc pr hpr
      rw [List.foldl_cons] at hpr
      exact ih _ (exportStep_rowOk students classes selectedClassIds selectedClass
        hclsmem hclssel acc sid hacc) pr hpr

theorem exportFold_id_mono (students : List Student) (selectedClass : ClassDoc)
    (l : List Nat) (acc : List (Nat × ExportRow)) (i : Nat) (hi : i ∈ acc.map Prod.fst) :
    i ∈ (l.foldl (exportStep students selectedClass) acc).map Prod.fst := by
  simp only [List.mem_map] at hi ⊢
  obtain ⟨pr, hpr, hfst⟩ := hi
  exact ⟨pr, foldl_mem_mono _ (fun acc sid => exportStep_mem_mono students selectedClass acc sid)
    l acc pr hpr, hfst⟩

theorem exportFold_covers (students : List Student) (selectedClass : ClassDoc) (sid : Nat)
    (hsid : (students.find? (fun s => s.id = sid)).isSome) :
    ∀ (l : List Nat), sid ∈ l → ∀ acc : List (Nat × ExportRow),
      sid ∈ (l.foldl (exportStep students selectedClass) acc).map Prod.fst := by
  intro l
  induction l with
  | nil => intro h; cases h
  | cons x rest ih =>
      intro hmem acc
      rw [List.foldl_cons]
      rcases List.mem_cons.mp hmem with heq | hrest
      · subst heq
        have hstep : sid ∈ (exportStep students selectedClass acc sid).map Prod.fst := by
          rw [exportStep]
          cases hc : (acc.map Prod.fst).contains sid with
          | true => simpa using contains_true_mem hc
          | false =>
              cases hf : students.find? (fun s => s.id = sid) with
              | none => rw [hf] at hsid; cases hsid
              | some st => simp
        exact exportFold_id_mono students selectedClass rest _ sid hstep
      · exact ih hrest _

theorem exportOuterStep_mem_mono (students : List Student) (classes : List ClassDoc)
    (acc : List (Nat × ExportRow)) (classId : Nat) :
    ∀ pr ∈ acc, pr ∈ exportOuterStep students classes acc classId := by
  intro pr hpr
  rw [exportOuterStep]
  cases hfind : classes.find? (fun cls => cls.id = classId) with
  | none => exact hpr
  | some selectedClass => exact exportClassStudents_mem_mono students selectedClass acc pr hpr

theorem exportOuter_id_mono (students : List Student) (classes : List ClassDoc)
    (l : List Nat) (acc : List (Nat × ExportRow)) (i : Nat) (hi : i ∈ acc.map Prod.fst) :
    i ∈ (l.foldl (exportOuterStep students classes) acc).map Prod.fst := by
  simp only [List.mem_map] at hi ⊢
  obtain ⟨pr, hpr, hfst⟩ := hi
  exact ⟨pr, foldl_mem_mono _ (exportOuterStep_mem_mono students classes) l acc pr hpr, hfst⟩

theorem exportOuter_nodup (students : List Student) (classes : List ClassDoc) :
    ∀ (l : List Nat) (acc : List (Nat × ExportRow)), (acc.map Prod.fst).Nodup →
      ((l.foldl (exportOuterStep students classes) acc).map Prod.fst).Nodup := by
  intro l
  induction l with
  | nil => intro acc h; simpa using h
  | cons x rest ih =>
      intro acc h
      rw [List.foldl_cons]
      refine ih _ ?_
      rw [exportOuterStep]
      cases hfind : classes.find? (fun cls => cls.id = x) with
      | none => exact h
      | some selectedClass => exact exportClassStudents_nodup students selectedClass acc h

theorem exportOuter_rowOk (students : List Student) (classes : List ClassDoc)
    (selectedClassIds : List Nat) :
    ∀ (l : List Nat), (∀ i ∈ l, i ∈ selectedClassIds) →
      ∀ acc : List (Nat × ExportRow),
        (∀ pr ∈ acc, RowOk students classes selectedClassIds pr) →
        ∀ pr ∈ l.foldl (exportOuterStep students classes) acc,
          RowOk students classes selectedClassIds pr := by
  intro l
  induction l with
  | nil => intro _ acc hacc pr hpr; exact hacc pr (by simpa using hpr)
  | cons x rest ih =>
      intro hsub acc hacc pr hpr
      rw [List.foldl_cons] at hpr
      refine ih (fun i hi => hsub i (List.mem_cons_of_mem x hi)) _ ?_ pr hpr
      intro pr' hpr'
      rw [exportOuterStep] at hpr'
      cases hfind : classes.find? (fun cls => cls.id = x) with
      | none =>
          rw [hfind] at hpr'
          exact hacc pr' hpr'
      | some selectedClass =>
          rw [hfind] at hpr'
          have hmem : selectedClass ∈ classes := List.mem_of_find?_eq_some hfind
          have hid : selectedClass.id = x := by simpa using List.find?_some hfind
          exact exportFold_rowOk students classes selectedClassIds selectedClass hmem
            (hid ▸ hsub x (List.mem_cons_self x rest)) selectedClass.students acc hacc pr' hpr'

theorem exportOuter_covers (students : List Student) (classes : List ClassDoc)
    (st : Student) (hst : st ∈ students) (cls : ClassDoc) (hcls : cls ∈ classes)
    (hnodup : (classes.map ClassDoc.id).Nodup) :
    ∀ (l : List Nat), cls.id ∈ l → st.id ∈ cls.students →
      ∀ acc : List (Nat × ExportRow),
        st.id ∈ (l.foldl (exportOuterStep students classes) acc).map Prod.fst := by
  intro l
  induction l with
  | nil => intro h; cases h
  | cons x rest ih =>
      intro hmem hroster acc
      rw [List.foldl_cons]
      rcases List.mem_cons.mp hmem with heq | hrest
      · have hstep : st.id ∈ (exportOuterStep students classes acc x).map Prod.fst := by
          rw [exportOuterStep]
          cases hfind : classes.find? (fun c => c.id = x) with
          | none =>
              rw [List.find?_eq_none] at hfind
              have hne := hfind cls hcls
              simp only [decide_eq_true_eq] at hne
              exact absurd heq hne
          | some cls' =>
              have hmem' : cls' ∈ classes := List.mem_of_find?_eq_some hfind
              have hid' : cls'.id = x := by simpa using List.find?_some hfind
              have hsame : cls' = cls :=
                List.inj_on_of_nodup_map hnodup hmem' hcls (by rw [hid', ← heq])
              subst hsame
              have hfindst : (students.find? (fun s => s.id = st.id)).isSome := by
                rw [List.find?_isSome]
                exact ⟨st, hst, by simp⟩
              exact exportFold_covers students cls' st.id hfindst cls'.students hroster acc
        exact exportOuter_id_mono students classes rest _ st.id hstep
      · exact ih hrest hroster _

/-- Claim C9: the rows produced by `handleExportStudentsByClass` are
deduplicated by student id — the emitted per-row student ids contain no
duplicate, so a student belonging to several selected classes yields exactly
one row; every emitted row carries its student's name, phone, email and paid
status together with a selected class's name; and every student of the
collection appearing on a selected class's roster does get a row. -/
theorem exportStudentsByClasses_dedup (selectedClassIds : List Nat) (classes : List ClassDoc)
    (students : List Student) (hnodup : (classes.map ClassDoc.id).Nodup) :
    ((handleExportStudentsByClass selectedClassIds classes students).map Prod.fst).Nodup
      ∧ (∀ pr ∈ handleExportStudentsByClass selectedClassIds classes students,
          RowOk students classes selectedClassIds pr)
      ∧ ∀ st ∈ students, ∀ cls ∈ classes,
          cls.id ∈ selectedClassIds → st.id ∈ cls.students →
          st.id ∈ (handleExportStudentsByClass selectedClassIds classes students).map
            Prod.fst := by
  refine ⟨?_, ?_, ?_⟩
  · exact exportOuter_nodup students classes selectedClassIds [] (by simp)
  · exact exportOuter_rowOk students classes selectedClassIds selectedClassIds
      (fun i hi => hi) [] (by simp)
  · intro st hst cls hcls hsel hroster
    exact exportOuter_covers students classes st hst cls hcls hnodup selectedClassIds
      hsel hroster []

/-- Witness for claim C9: concrete collections where student 0 belongs to both
selected classes; the class ids are distinct and the theorem applies. -/
theorem exportStudentsByClasses_dedup_witness :
    (sampleClasses.map ClassDoc.id).Nodup
      ∧ (((handleExportStudentsByClass [5, 6] sampleClasses sampleStudents).map
            Prod.fst).Nodup
          ∧ (∀ pr ∈ handleExportStudentsByClass [5, 6] sampleClasses sampleStudents,
              RowOk sampleStudents sampleClasses [5, 6] pr)
          ∧ ∀ st ∈ sampleStudents, ∀ cls ∈ sampleClasses,
              cls.id ∈ [5, 6] → st.id ∈ cls.students →
              st.id ∈ (handleExportStudentsByClass [5, 6] sampleClasses
                sampleStudents).map Prod.fst) :=
  ⟨by decide,
   exportStudentsByClasses_dedup [5, 6] sampleClasses sampleStudents (by decide)⟩

/-! ### Attendance upsert lemmas (claims C2, C4) -/

theorem sameKeyB_keyOf {rec : AttRecord} {r : AttInput} (h : sameKeyB rec r = true) :
    keyOf rec = attDocId r := by
  simp only [sameKeyB, Bool.and_eq_true, beq_iff_eq] at h
  obtain ⟨⟨⟨h1, h2⟩, h3⟩, h4⟩ := h
  simp [keyOf, attDocId, h1, h2, h3, h4]

theorem attPayload_sameKey (now : Nat) (r : AttInput) :
    sameKeyB (attPayload now r) r = true := by
  simp [sameKeyB, attPayload]

theorem not_sameKey_of_ne (kv : String × AttRecord) (r : AttInput)
    (hkey : kv.1 = keyOf kv.2) (hne : kv.1 ≠ attDocId r) :
    sameKeyB kv.2 r = false := by
  cases h : sameKeyB kv.2 r
  · rfl
  · exact absurd (hkey.trans (sameKeyB_keyOf h)) hne

theorem replace_filter (r : AttInput) (rec : AttRecord) :
    ∀ (store : List (String × AttRecord)),
      (store.map Prod.fst).Nodup → (∀ kv ∈ store, kv.1 = keyOf kv.2) →
      store.any (fun kv => kv.1 = attDocId r) = true →
      sameKeyB rec r = true →
      (store.map (fun kv => if kv.1 = attDocId r then (attDocId r, rec) else kv)).filter
          (fun kv => sameKeyB kv.2 r)
        = [(attDocId r, rec)] := by
  intro store
  induction store with
  | nil => intro _ _ hany _; cases hany
  | cons kv rest ih =>
      intro hnodup hkeys hany hkey
      have hnodup' : kv.1 ∉ rest.map Prod.fst ∧ (rest.map Prod.fst).Nodup := by
        rw [List.map_cons, List.nodup_cons] at hnodup
        exact hnodup
      by_cases hhd : kv.1 = attDocId r
      · have hrestne : ∀ kv' ∈ rest, kv'.1 ≠ attDocId r := by
          intro kv' hkv' heq
          exact hnodup'.1 (by rw [hhd, ← heq]; exact List.mem_map_of_mem _ hkv')
        have hrestid :
            rest.map (fun kv => if kv.1 = attDocId r then (attDocId r, rec) else kv)
              = rest := by
          conv_rhs => rw [← List.map_id rest]
          apply List.map_congr_left
          intro kv' hkv'
          simp [hrestne kv' hkv']
        have hrestnil : rest.filter (fun kv => sameKeyB kv.2 r) = [] := by
          rw [List.filter_eq_nil_iff]
          intro kv' hkv'
          have := not_sameKey_of_ne kv' r (hkeys kv' (List.mem_cons_of_mem kv hkv'))
            (hrestne kv' hkv')
          simp [this]
        rw [List.map_cons, hrestid]
        simp only [hhd, if_pos]
        rw [List.filter_cons]
        simp [hkey, hrestnil]
      · have hheadno : sameKeyB kv.2 r = false :=
          not_sameKey_of_ne kv r (hkeys kv (List.mem_cons_self kv rest)) hhd
        have hany' : rest.any (fun kv => kv.1 = attDocId r) = true := by
          rw [List.any_cons] at hany
          simpa [hhd] using hany
        rw [List.map_cons]
        simp only [hhd, if_neg, ite_false]
        rw [List.filter_cons]
        simp only [hheadno, Bool.false_eq_true, if_false]
        exact ih hnodup'.2 (fun kv' hkv' => hkeys kv' (List.mem_cons_of_mem kv hkv'))
          hany' hkey

theorem addAttendanceRun_filter (now : Nat) (r : AttInput)
    (store : List (String × AttRecord)) (hwf : AttWF store) :
    (addAttendanceRun now r store).filter (fun kv => sameKeyB kv.2 r)
      = [(attDocId r, attPayload now r)] := by
  obtain ⟨hnodup, hkeys⟩ := hwf
  rw [addAttendanceRun, setAttendanceDoc]
  cases hany : store.any (fun kv => kv.1 = attDocId r) with
  | true =>
      simp only [if_pos]
      exact replace_filter r (attPayload now r) store hnodup hkeys hany
        (attPayload_sameKey now r)
  | false =>
      simp only [Bool.false_eq_true, if_false]
      have hnone : store.filter (fun kv => sameKeyB kv.2 r) = [] := by
        rw [List.filter_eq_nil_iff]
        intro kv hkv
        have hne : kv.1 ≠ attDocId r := by
          intro heq
          have : store.any (fun kv => kv.1 = attDocId r) = true := by
            rw [List.any_eq_true]
            exact ⟨kv, hkv, by simp [heq]⟩
          rw [this] at hany
          cases hany
        simp [not_sameKey_of_ne kv r (hkeys kv hkv) hne]
      rw [List.filter_append, hnone]
      simp [attPayload_sameKey]

theorem addAttendanceRun_wf (now : Nat) (r : AttInput)
    (store : List (String × AttRecord)) (hwf : AttWF store) :
    AttWF (addAttendanceRun now r store) := by
  obtain ⟨hnodup, hkeys⟩ := hwf
  rw [addAttendanceRun, setAttendanceDoc]
  cases hany : store.any (fun kv => kv.1 = attDocId r) with
  | true =>
      simp only [if_pos]
      constructor
      · have : (store.map (fun kv =>
            if kv.1 = attDocId r then (attDocId r, attPayload now r) else kv)).map Prod.fst
            = store.map Prod.fst := by
          rw [List.map_map]
          apply List.map_congr_left
          intro kv _
          by_cases h : kv.1 = attDocId r <;> simp [h]
        rw [this]
        exact hnodup
      · intro kv hkv
        rw [List.mem_map] at hkv
        obtain ⟨kv', hkv', heq⟩ := hkv
        by_cases h : kv'.1 = attDocId r
        · rw [if_pos h] at heq
          subst heq
          simp [keyOf, attDocId, attPayload, dayOf]
        · rw [if_neg h] at heq
          subst heq
          exact hkeys kv' hkv'
  | false =>
      simp only [Bool.false_eq_true, if_false]
      constructor
      · rw [List.map_append, List.nodup_append]
        refine ⟨hnodup, by simp, ?_⟩
        intro a ha hb
        simp only [List.map_cons, List.map_nil, List.mem_singleton] at hb
        subst hb
        rw [List.mem_map] at ha
        obtain ⟨kv, hkv, heq⟩ := ha
        have : store.any (fun kv => kv.1 = attDocId r) = true := by
          rw [List.any_eq_true]
          exact ⟨kv, hkv, by simp [heq]⟩
        rw [this] at hany
        cases hany
      · intro kv hkv
        rw [List.mem_append] at hkv
        rcases hkv with h | h
        · exact hkeys kv h
        · simp only [List.mem_singleton] at h
          subst h
          simp [keyOf, attDocId, attPayload, dayOf]

/-- Claim C2: submitting two attendance records with the same
(student, class, instructor, calendar-day) key but different statuses against
a well-formed store leaves exactly one stored record for that key, and its
status is the one from the second (latest) submission. -/
theorem addAttendance_upsert_latest (store : List (String × AttRecord))
    (r1 r2 : AttInput) (t1 t2 : Nat) (hwf : AttWF store)
    (hstu : r1.studentId = r2.studentId) (hcls : r1.classId = r2.classId)
    (hins : r1.instructorId = r2.instructorId) (hday : dayOf r1.date = dayOf r2.date)
    (hdiff : r1.status ≠ r2.status) :
    ((addAttendanceRun t2 r2 (addAttendanceRun t1 r1 store)).filter
        (fun kv => sameKeyB kv.2 r2)).length = 1
      ∧ ∀ kv ∈ (addAttendanceRun t2 r2 (addAttendanceRun t1 r1 store)).filter
          (fun kv => sameKeyB kv.2 r2),
          kv.2.status = r2.status := by
  have hwf1 : AttWF (addAttendanceRun t1 r1 store) := addAttendanceRun_wf t1 r1 store hwf
  have hfil := addAttendanceRun_filter t2 r2 (addAttendanceRun t1 r1 store) hwf1
  rw [hfil]
  constructor
  · rfl
  · intro kv hkv
    simp only [List.mem_singleton] at hkv
    subst hkv
    rfl

/-- Witness for claim C2: starting from the empty store (well-formed), two
submissions for the same key on the same day with different statuses. -/
theorem addAttendance_upsert_latest_witness :
    (AttWF [] ∧ sampleAtt1.studentId = sampleAtt2.studentId
      ∧ sampleAtt1.classId = sampleAtt2.classId
      ∧ sampleAtt1.instructorId = sampleAtt2.instructorId
      ∧ dayOf sampleAtt1.date = dayOf sampleAtt2.date
      ∧ sampleAtt1.status ≠ sampleAtt2.status)
      ∧ (((addAttendanceRun 200 sampleAtt2 (addAttendanceRun 100 sampleAtt1 [])).filter
            (fun kv => sameKeyB kv.2 sampleAtt2)).length = 1
          ∧ ∀ kv ∈ (addAttendanceRun 200 sampleAtt2
              (addAttendanceRun 100 sampleAtt1 [])).filter
              (fun kv => sameKeyB kv.2 sampleAtt2),
              kv.2.status = sampleAtt2.status) :=
  ⟨⟨⟨by simp [AttWF], by simp⟩, by decide, by decide, by decide, by decide, by decide⟩,
   addAttendance_upsert_latest [] sampleAtt1 sampleAtt2 100 200
     ⟨by simp [AttWF], by simp⟩ (by decide) (by decide) (by decide) (by decide) (by decide)⟩

/-- Claim C4 (refuted — code bug): re-submitting an existing composite key
does NOT leave the creation timestamp unchanged.  The payload of lines
2880-2885 always includes `createdAt: Timestamp.now()` (and the submitted
`date`), so the merge write replaces the stored `createdAt` (here `100`
becomes `200`) and the stored `date` (same calendar day, different time of
day), not only `status` and `updatedAt`. -/
theorem addAttendance_createdAt_bug :
    attDocId sampleAtt1 = attDocId sampleAtt2
      ∧ addAttendanceRun 100 sampleAtt1 []
          = [(attDocId sampleAtt1, attPayload 100 sampleAtt1)]
      ∧ addAttendanceRun 200 sampleAtt2 (addAttendanceRun 100 sampleAtt1 [])
          = [(attDocId sampleAtt1, attPayload 200 sampleAtt2)]
      ∧ (attPayload 100 sampleAtt1).createdAt = 100
      ∧ (attPayload 200 sampleAtt2).createdAt = 200
      ∧ (attPayload 200 sampleAtt2).date ≠ (attPayload 100 sampleAtt1).date := by
  decide

/-! ### Relationship-maintainer lemmas (claims C1, C3, C5, C10) -/

/-- Claim C3: after `deleteClass(C)` no student references `C`, `C` is gone
from the class collection, the set of student ids is untouched (no student is
deleted), and the resulting state is exactly the class-document deletion
applied after the per-student `classId` clearing (the source awaits every
clearing write before issuing `deleteClassDoc`). -/
theorem deleteClass_postconditions (cid : Nat) (s : DashState) :
    (∀ st ∈ (deleteClassRun cid s).students, st.classId ≠ some cid)
      ∧ (∀ c ∈ (deleteClassRun cid s).classes, c.id ≠ cid)
      ∧ (deleteClassRun cid s).students.map Student.id = s.students.map Student.id
      ∧ deleteClassRun cid s
          = { students := clearClassRefs cid s.students,
              classes := deleteClassDocRun cid s.classes,
              nextId := s.nextId } := by
  refine ⟨?_, ?_, ?_, rfl⟩
  · intro st hst
    rw [deleteClassRun] at hst
    simp only [clearClassRefs, List.mem_map] at hst
    obtain ⟨st0, _, heq⟩ := hst
    by_cases h : st0.classId = some cid
    · rw [if_pos h] at heq
      subst heq
      simp
    · rw [if_neg h] at heq
      subst heq
      exact h
  · intro c hc
    rw [deleteClassRun] at hc
    simp only [deleteClassDocRun, List.mem_filter, decide_eq_true_eq] at hc
    exact hc.2
  · rw [deleteClassRun]
    simp only [clearClassRefs, List.map_map]
    apply List.map_congr_left
    intro st _
    by_cases h : st.classId = some cid <;> simp [h]

/-- Claim C5: the bulk assignment `updateClass(classId, {students: idSet})`
replaces the targeted class's roster wholesale with exactly the given id set,
leaves every other class untouched, and leaves every student document
unchanged — in particular a student in the set whose `classId` differs from
`classId` keeps that differing `classId`. -/
theorem updateClass_wholesale (classId : Nat) (idSet : List Nat) (s : DashState) :
    (updateClassRun classId idSet s).students = s.students
      ∧ (updateClassRun classId idSet s).classes
          = s.classes.map
              (fun c => if c.id = classId then { c with students := idSet } else c) :=
  ⟨rfl, rfl⟩

/-! #### Store-primitive lemmas -/

theorem updateClassStudentsDoc_ids (classes : List ClassDoc) (cid : Nat) (l : List Nat) :
    (updateClassStudentsDoc classes cid l).map ClassDoc.id = classes.map ClassDoc.id := by
  rw [updateClassStudentsDoc, List.map_map]
  apply List.map_congr_left
  intro c _
  by_cases h : c.id = cid <;> simp [h]

theorem mem_updateClassStudentsDoc {classes : List ClassDoc} {cid : Nat} {l : List Nat}
    {c : ClassDoc} (h : c ∈ updateClassStudentsDoc classes cid l) :
    (∃ c0 ∈ classes, c0.id = cid ∧ c = { c0 with students := l })
      ∨ (c ∈ classes ∧ c.id ≠ cid) := by
  rw [updateClassStudentsDoc, List.mem_map] at h
  obtain ⟨c0, hc0, heq⟩ := h
  by_cases hid : c0.id = cid
  · rw [if_pos hid] at heq
    exact Or.inl ⟨c0, hc0, hid, heq.symm⟩
  · rw [if_neg hid] at heq
    subst heq
    exact Or.inr ⟨hc0, hid⟩

theorem updateStudentDoc_ids (students : List Student) (sid : Nat) (d : StudentData) :
    (updateStudentDoc students sid d).map Student.id = students.map Student.id := by
  rw [updateStudentDoc, List.map_map]
  apply List.map_congr_left
  intro st _
  by_cases h : st.id = sid <;> simp [h, mkStudent]

theorem mem_updateStudentDoc {students : List Student} {sid : Nat} {d : StudentData}
    {st : Student} (h : st ∈ updateStudentDoc students sid d) :
    (st = mkStudent sid d ∧ ∃ st0 ∈ students, st0.id = sid)
      ∨ (st ∈ students ∧ st.id ≠ sid) := by
  rw [updateStudentDoc, List.mem_map] at h
  obtain ⟨st0, hst0, heq⟩ := h
  by_cases hid : st0.id = sid
  · rw [if_pos hid] at heq
    exact Or.inl ⟨heq.symm, st0, hst0, hid⟩
  · rw [if_neg hid] at heq
    subst heq
    exact Or.inr ⟨hst0, hid⟩

theorem find?_class_eq {classes : List ClassDoc} (hnodup : (classes.map ClassDoc.id).Nodup)
    {cid : Nat} {c : ClassDoc} (hfind : classes.find? (fun cls => cls.id = cid) = some c)
    {c' : ClassDoc} (hmem : c' ∈ classes) (hid : c'.id = cid) : c' = c := by
  have h1 : c ∈ classes := List.mem_of_find?_eq_some hfind
  have h2 : c.id = cid := by simpa using List.find?_some hfind
  exact List.inj_on_of_nodup_map hnodup hmem h1 (by rw [hid, h2])

theorem find?_student_eq {students : List Student}
    (hnodup : (students.map Student.id).Nodup) {sid : Nat} {st : Student}
    (hfind : students.find? (fun s => s.id = sid) = some st)
    {st' : Student} (hmem : st' ∈ students) (hid : st'.id = sid) : st' = st := by
  have h1 : st ∈ students := List.mem_of_find?_eq_some hfind
  have h2 : st.id = sid := by simpa using List.find?_some hfind
  exact List.inj_on_of_nodup_map hnodup hmem h1 (by rw [hid, h2])

theorem nodup_append_singleton {l : List Nat} {a : Nat} (h : l.Nodup) (ha : a ∉ l) :
    (l ++ [a]).Nodup := by
  rw [List.nodup_append]
  refine ⟨h, by simp, ?_⟩
  intro b hb hb'
  simp only [List.mem_singleton] at hb'
  subst hb'
  exact ha hb

theorem fresh_id_nodup (students : List Student) (n : Nat)
    (hsid : (students.map Student.id).Nodup) (hbound : ∀ st ∈ students, st.id < n)
    (d : StudentData) : ((students ++ [mkStudent n d]).map Student.id).Nodup := by
  rw [List.map_append]
  rw [List.nodup_append]
  refine ⟨hsid, by simp, ?_⟩
  intro a ha hb
  simp only [List.map_cons, List.map_nil, List.mem_singleton, mkStudent] at hb
  subst hb
  rw [List.mem_map] at ha
  obtain ⟨st, hst, hstid⟩ := ha
  have := hbound st hst
  omega

theorem fresh_id_bound (students : List Student) (n : Nat)
    (hbound : ∀ st ∈ students, st.id < n) (d : StudentData) :
    ∀ st ∈ students ++ [mkStudent n d], st.id < n + 1 := by
  intro st hst
  rw [List.mem_append] at hst
  rcases hst with h | h
  · exact Nat.lt_trans (hbound st h) (Nat.lt_succ_self _)
  · simp only [List.mem_singleton] at h
    subst h
    simp [mkStudent]

/-! #### `addStudent` preserves consistency -/

theorem consistent_addStudent_base (d : StudentData) (s : DashState) (h : Consistent s)
    (hnoclass : ∀ c ∈ s.classes, d.classId ≠ some c.id) :
    Consistent { s with students := s.students ++ [mkStudent s.nextId d],
                        nextId := s.nextId + 1 } := by
  obtain ⟨hsid, hcid, hbound, hnodup, hmem, hagree⟩ := h
  refine ⟨fresh_id_nodup s.students s.nextId hsid hbound d, hcid,
    fresh_id_bound s.students s.nextId hbound d, hnodup, ?_, ?_⟩
  · intro c hc i hi
    obtain ⟨st, hst, hstid⟩ := hmem c hc i hi
    exact ⟨st, List.mem_append_left _ hst, hstid⟩
  · intro st hst c hc
    rw [List.mem_append] at hst
    rcases hst with h | h
    · exact hagree st h c hc
    · simp only [List.mem_singleton] at h
      subst h
      constructor
      · intro hcl
        exact absurd (by simpa [mkStudent] using hcl) (hnoclass c hc)
      · intro hmem'
        exfalso
        have hmem'' : s.nextId ∈ c.students := by simpa [mkStudent] using hmem'
        obtain ⟨st', hst', hid'⟩ := hmem c hc _ hmem''
        have := hbound st' hst'
        omega

theorem addStudentRun_consistent (d : StudentData) (s : DashState) (h : Consistent s) :
    Consistent (addStudentRun d s) := by
  cases hdc : d.classId with
  | none =>
      have heq : addStudentRun d s
          = { s with students := s.students ++ [mkStudent s.nextId d],
                     nextId := s.nextId + 1 } := by
        rw [addStudentRun, hdc]
      rw [heq]
      apply consistent_addStudent_base d s h
      intro c _
      rw [hdc]
      simp
  | some cid =>
      cases hfind : s.classes.find? (fun cls => cls.id = cid) with
      | none =>
          have heq : addStudentRun d s
              = { s with students := s.students ++ [mkStudent s.nextId d],
                         nextId := s.nextId + 1 } := by
            rw [addStudentRun, hdc]
            dsimp only
            rw [hfind]
          rw [heq]
          apply consistent_addStudent_base d s h
          intro c hc
          rw [hdc]
          intro hcontra
          rw [List.find?_eq_none] at hfind
          have hne := hfind c hc
          simp only [decide_eq_true_eq] at hne
          injection hcontra with h'
          exact hne h'.symm
      | some currentClass =>
          have hcc_mem : currentClass ∈ s.classes := List.mem_of_find?_eq_some hfind
          have hcc_id : currentClass.id = cid := by simpa using List.find?_some hfind
          have heq : addStudentRun d s
              = { students := s.students ++ [mkStudent s.nextId d],
                  classes := updateClassStudentsDoc s.classes cid
                    (currentClass.students ++ [s.nextId]),
                  nextId := s.nextId + 1 } := by
            rw [addStudentRun, hdc]
            dsimp only
            rw [hfind]
          rw [heq]
          obtain ⟨hsid, hcid, hbound, hnodup, hmem, hagree⟩ := h
          have hfresh_roster : ∀ c ∈ s.classes, s.nextId ∉ c.students := by
            intro c hc hin
            obtain ⟨st, hst, hstid⟩ := hmem c hc _ hin
            have := hbound st hst
            omega
          refine ⟨fresh_id_nodup s.students s.nextId hsid hbound d, ?_,
            fresh_id_bound s.students s.nextId hbound d, ?_, ?_, ?_⟩
          · rw [updateClassStudentsDoc_ids]
            exact hcid
          · intro c' hc'
            rcases mem_updateClassStudentsDoc hc' with ⟨c0, hc0, hc0id, rfl⟩ | ⟨hold, _⟩
            · exact nodup_append_singleton (hnodup currentClass hcc_mem)
                (hfresh_roster currentClass hcc_mem)
            · exact hnodup c' hold
          · intro c' hc' i hi
            rcases mem_updateClassStudentsDoc hc' with ⟨c0, hc0, hc0id, rfl⟩ | ⟨hold, _⟩
            · simp only [List.mem_append, List.mem_singleton] at hi
              rcases hi with hi | hi
              · obtain ⟨st, hst, hstid⟩ := hmem currentClass hcc_mem i hi
                exact ⟨st, List.mem_append_left _ hst, hstid⟩
              · subst hi
                exact ⟨mkStudent s.nextId d, List.mem_append_right _ (by simp), rfl⟩
            · obtain ⟨st, hst, hstid⟩ := hmem c' hold i hi
              exact ⟨st, List.mem_append_left _ hst, hstid⟩
          · intro st hst c' hc'
            rw [List.mem_append] at hst
            rcases hst with hstold | hstnew
            · rcases mem_updateClassStudentsDoc hc' with ⟨c0, hc0, hc0id, rfl⟩ | ⟨hold, _⟩
              · have hiff := hagree st hstold currentClass hcc_mem
                have hne : st.id ≠ s.nextId := by
                  have := hbound st hstold
                  omega
                simp only [List.mem_append, List.mem_singleton]
                constructor
                · intro hcl
                  have : st.classId = some currentClass.id := by
                    rw [hcl]
                    simp [hc0id, hcc_id]
                  exact Or.inl (hiff.mp this)
                · intro hin
                  rcases hin with hin | hin
                  · have : st.classId = some currentClass.id := hiff.mpr hin
                    rw [this]
                    simp [hcc_id, hc0id]
                  · exact absurd hin hne
              · exact hagree st hstold c' hold
            · simp only [List.mem_singleton] at hstnew
              subst hstnew
              rcases mem_updateClassStudentsDoc hc' with ⟨c0, hc0, hc0id, rfl⟩ | ⟨hold, hnec⟩
              · constructor
                · intro _
                  simp [mkStudent]
                · intro _
                  simp [mkStudent, hdc, hc0id]
              · constructor
                · intro hcl
                  exfalso
                  have : cid = c'.id := by
                    have h' : (mkStudent s.nextId d).classId = some c'.id := hcl
                    simpa [mkStudent, hdc] using h'
                  exact hnec this.symm
                · intro hin
                  exfalso
                  exact hfresh_roster c' hold (by simpa [mkStudent] using hin)

/-! #### `updateStudent` preserves consistency -/

theorem updateStudentDoc_mem_image {students : List Student} {sid : Nat} {d : StudentData}
    {st : Student} (hst : st ∈ students) :
    (if st.id = sid then mkStudent sid d else st) ∈ updateStudentDoc students sid d := by
  rw [updateStudentDoc]
  exact List.mem_map_of_mem _ hst

theorem updateStudentDoc_exists_id {students : List Student} {sid : Nat} {d : StudentData}
    {i : Nat} (h : ∃ st ∈ students, st.id = i) :
    ∃ st' ∈ updateStudentDoc students sid d, st'.id = i := by
  obtain ⟨st, hst, hid⟩ := h
  refine ⟨_, updateStudentDoc_mem_image hst, ?_⟩
  by_cases hh : st.id = sid
  · rw [if_pos hh]
    rw [mkStudent]
    rw [← hid, hh]
  · rw [if_neg hh]
    exact hid

theorem removedFrom_self (s : DashState) (h : Consistent s) (sid : Nat)
    (st0 : Student) (hst0 : st0 ∈ s.students) (hst0id : st0.id = sid)
    (hnotin : ∀ c ∈ s.classes, st0.classId ≠ some c.id) :
    RemovedFrom s sid s.classes := by
  obtain ⟨hsid, hcid, hbound, hnodup, hmem, hagree⟩ := h
  refine ⟨rfl, ?_, ?_⟩
  · intro c hc hin
    have hiff := hagree st0 hst0 c hc
    rw [hst0id] at hiff
    exact hnotin c hc (hiff.mpr hin)
  · intro c hc
    exact ⟨c, hc, rfl, hnodup c hc, fun i hi => hi, fun j _ => Iff.rfl⟩

theorem removedFrom_filter (s : DashState) (h : Consistent s) (sid : Nat)
    (st0 : Student) (hst0 : st0 ∈ s.students) (hst0id : st0.id = sid)
    (ocid : Nat) (hocid : st0.classId = some ocid)
    (oldClass : ClassDoc) (holdmem : oldClass ∈ s.classes) (holdid : oldClass.id = ocid) :
    RemovedFrom s sid
      (updateClassStudentsDoc s.classes ocid
        ((oldClass.students).filter (fun i => i ≠ sid))) := by
  obtain ⟨hsid, hcid, hbound, hnodup, hmem, hagree⟩ := h
  refine ⟨updateClassStudentsDoc_ids s.classes ocid _, ?_, ?_⟩
  · intro c' hc' hin
    rcases mem_updateClassStudentsDoc hc' with ⟨c0, hc0, hc0id, rfl⟩ | ⟨hold, hne⟩
    · simp only [List.mem_filter, decide_eq_true_eq] at hin
      exact hin.2 rfl
    · have hiff := hagree st0 hst0 c' hold
      rw [hst0id] at hiff
      have : st0.classId = some c'.id := hiff.mpr hin
      rw [hocid] at this
      injection this with h'
      exact hne h'.symm
  · intro c' hc'
    rcases mem_updateClassStudentsDoc hc' with ⟨c0, hc0, hc0id, rfl⟩ | ⟨hold, hne⟩
    · refine ⟨oldClass, holdmem, by simpa [holdid] using hc0id.symm, ?_, ?_, ?_⟩
      · exact List.Nodup.filter _ (hnodup oldClass holdmem)
      · intro i hi
        simp only [List.mem_filter] at hi
        exact hi.1
      · intro j hj
        simp only [List.mem_filter, decide_eq_true_eq]
        constructor
        · exact fun hh => hh.1
        · exact fun hh => ⟨hh, hj⟩
    · exact ⟨c', hold, rfl, hnodup c' hold, fun i hi => hi, fun j _ => Iff.rfl⟩

/-- Assembly for `updateStudent`: given the student write, a classes list
satisfying the removal interface, and one of the three shapes the append step
can take, the final state is consistent. -/
theorem consistent_after_update (s : DashState) (h : Consistent s) (sid : Nat)
    (d : StudentData) (st0 : Student) (hst0 : st0 ∈ s.students) (hst0id : st0.id = sid)
    (classesR : List ClassDoc) (hrem : RemovedFrom s sid classesR)
    (classesF : List ClassDoc)
    (hfin : (d.classId = none ∧ classesF = classesR)
      ∨ (∃ ncid, d.classId = some ncid ∧ (∀ c ∈ s.classes, c.id ≠ ncid)
          ∧ classesF = classesR)
      ∨ (∃ ncid newClass, d.classId = some ncid ∧ newClass ∈ s.classes
          ∧ newClass.id = ncid ∧ st0.classId ≠ some ncid
          ∧ classesF = updateClassStudentsDoc classesR ncid
              (newClass.students ++ [sid]))) :
    Consistent { students := updateStudentDoc s.students sid d, classes := classesF,
                 nextId := s.nextId } := by
  obtain ⟨hsid, hcid, hbound, hnodup, hmem, hagree⟩ := h
  obtain ⟨hrids, hrnot, hrcover⟩ := hrem
  have hstudents_ids : (updateStudentDoc s.students sid d).map Student.id
      = s.students.map Student.id := updateStudentDoc_ids s.students sid d
  have hbound' : ∀ st ∈ updateStudentDoc s.students sid d, st.id < s.nextId := by
    intro st hst
    rcases mem_updateStudentDoc hst with ⟨rfl, st1, hst1, hst1id⟩ | ⟨hold, _⟩
    · have := hbound st1 hst1
      simp only [mkStudent]
      omega
    · exact hbound st hold
  -- membership of old students in the updated student list
  have hold_mem : ∀ st ∈ s.students, st.id ≠ sid → st ∈ updateStudentDoc s.students sid d := by
    intro st hst hne
    have := @updateStudentDoc_mem_image s.students sid d st hst
    rwa [if_neg hne] at this
  have hnew_mem : mkStudent sid d ∈ updateStudentDoc s.students sid d := by
    have := @updateStudentDoc_mem_image s.students sid d st0 hst0
    rwa [if_pos hst0id] at this
  -- the only student with id `sid` in the old list is `st0`
  have huniq : ∀ st ∈ s.students, st.id = sid → st = st0 := by
    intro st hst hid
    exact List.inj_on_of_nodup_map hsid hst hst0 (by rw [hid, hst0id])
  rcases hfin with ⟨hdc, rfl⟩ | ⟨ncid, hdc, hnone, rfl⟩ | ⟨ncid, newClass, hdc, hnewmem, hnewid, hnotold, rfl⟩
  · -- new classId is null: final classes are the removal result
    refine ⟨by rw [hstudents_ids]; exact hsid, by rw [hrids]; exact hcid, hbound', ?_, ?_, ?_⟩
    · intro c' hc'
      obtain ⟨c, _, _, hnd, _, _⟩ := hrcover c' hc'
      exact hnd
    · intro c' hc' i hi
      obtain ⟨c, hc, _, _, hsub, _⟩ := hrcover c' hc'
      exact updateStudentDoc_exists_id (hmem c hc i (hsub i hi))
    · intro st hst c' hc'
      rcases mem_updateStudentDoc hst with ⟨rfl, _, _, _⟩ | ⟨hold, hne⟩
      · constructor
        · intro hcl
          rw [mkStudent] at hcl
          simp only at hcl
          rw [hdc] at hcl
          cases hcl
        · intro hin
          exfalso
          exact hrnot c' hc' (by simpa [mkStudent] using hin)
      · obtain ⟨c, hc, hcid', _, _, hiff⟩ := hrcover c' hc'
        have := hagree st hold c hc
        rw [hcid'] at this
        rw [hiff st.id hne]
        exact this
  · -- new classId dangles: final classes are the removal result
    refine ⟨by rw [hstudents_ids]; exact hsid, by rw [hrids]; exact hcid, hbound', ?_, ?_, ?_⟩
    · intro c' hc'
      obtain ⟨c, _, _, hnd, _, _⟩ := hrcover c' hc'
      exact hnd
    · intro c' hc' i hi
      obtain ⟨c, hc, _, _, hsub, _⟩ := hrcover c' hc'
      exact updateStudentDoc_exists_id (hmem c hc i (hsub i hi))
    · intro st hst c' hc'
      rcases mem_updateStudentDoc hst with ⟨rfl, _, _, _⟩ | ⟨hold, hne⟩
      · constructor
        · intro hcl
          exfalso
          rw [mkStudent] at hcl
          simp only at hcl
          rw [hdc] at hcl
          injection hcl with h'
          obtain ⟨c, hc, hcid', _, _, _⟩ := hrcover c' hc'
          exact hnone c hc (by rw [hcid', ← h'])
        · intro hin
          exfalso
          exact hrnot c' hc' (by simpa [mkStudent] using hin)
      · obtain ⟨c, hc, hcid', _, _, hiff⟩ := hrcover c' hc'
        have := hagree st hold c hc
        rw [hcid'] at this
        rw [hiff st.id hne]
        exact this
  · -- new classId resolves to `newClass`: its roster gains `sid`
    have hsid_not_new : sid ∉ newClass.students := by
      intro hin
      have hiff := hagree st0 hst0 newClass hnewmem
      rw [hst0id] at hiff
      exact hnotold (by rw [hiff.mpr hin, hnewid])
    refine ⟨by rw [hstudents_ids]; exact hsid, ?_, hbound', ?_, ?_, ?_⟩
    · rw [updateClassStudentsDoc_ids, hrids]
      exact hcid
    · intro c'' hc''
      rcases mem_updateClassStudentsDoc hc'' with ⟨c0, hc0, hc0id, rfl⟩ | ⟨holdr, _⟩
      · exact nodup_append_singleton (hnodup newClass hnewmem) hsid_not_new
      · obtain ⟨c, _, _, hnd, _, _⟩ := hrcover c'' holdr
        exact hnd
    · intro c'' hc'' i hi
      rcases mem_updateClassStudentsDoc hc'' with ⟨c0, hc0, hc0id, rfl⟩ | ⟨holdr, _⟩
      · simp only [List.mem_append, List.mem_singleton] at hi
        rcases hi with hi | hi
        · exact updateStudentDoc_exists_id (hmem newClass hnewmem i hi)
        · rw [hi]
          exact ⟨mkStudent sid d, hnew_mem, rfl⟩
      · obtain ⟨c, hc, _, _, hsub, _⟩ := hrcover c'' holdr
        exact updateStudentDoc_exists_id (hmem c hc i (hsub i hi))
    · intro st hst c'' hc''
      rcases mem_updateStudentDoc hst with ⟨rfl, _, _, _⟩ | ⟨hold, hne⟩
      · rcases mem_updateClassStudentsDoc hc'' with ⟨c0, hc0, hc0id, rfl⟩ | ⟨holdr, hnec⟩
        · constructor
          · intro _
            simp [mkStudent]
          · intro _
            show (mkStudent sid d).classId = _
            rw [mkStudent]
            simp only
            rw [hdc]
            exact congrArg some hc0id.symm
        · constructor
          · intro hcl
            exfalso
            rw [mkStudent] at hcl
            simp only at hcl
            rw [hdc] at hcl
            injection hcl with h'
            exact hnec h'.symm
          · intro hin
            exfalso
            exact hrnot c'' holdr (by simpa [mkStudent] using hin)
      · rcases mem_updateClassStudentsDoc hc'' with ⟨c0, hc0, hc0id, rfl⟩ | ⟨holdr, hnec⟩
        · have hiff := hagree st hold newClass hnewmem
          simp only [List.mem_append, List.mem_singleton]
          constructor
          · intro hcl
            refine Or.inl (hiff.mp ?_)
            rw [hcl, hnewid]
            exact congrArg some hc0id
          · intro hin
            rcases hin with hin | hin
            · rw [hiff.mpr hin, hnewid]
              exact congrArg some hc0id.symm
            · exact absurd hin hne
        · obtain ⟨c, hc, hcid', _, _, hiff⟩ := hrcover c'' holdr
          have := hagree st hold c hc
          rw [hcid'] at this
          rw [hiff st.id hne]
          exact this

theorem consistent_same_class (s : DashState) (h : Consistent s) (sid : Nat)
    (d : StudentData) (st0 : Student) (hst0 : st0 ∈ s.students) (hst0id : st0.id = sid)
    (hsame : st0.classId = d.classId) :
    Consistent { s with students := updateStudentDoc s.students sid d } := by
  obtain ⟨hsid, hcid, hbound, hnodup, hmem, hagree⟩ := h
  refine ⟨by rw [updateStudentDoc_ids]; exact hsid, hcid, ?_, hnodup, ?_, ?_⟩
  · intro st hst
    rcases mem_updateStudentDoc hst with ⟨rfl, st1, hst1, hst1id⟩ | ⟨hold, _⟩
    · have := hbound st1 hst1
      simp only [mkStudent]
      omega
    · exact hbound st hold
  · intro c hc i hi
    exact updateStudentDoc_exists_id (hmem c hc i hi)
  · intro st hst c hc
    rcases mem_updateStudentDoc hst with ⟨rfl, _, _, _⟩ | ⟨hold, hne⟩
    · have hiff := hagree st0 hst0 c hc
      rw [hst0id] at hiff
      simp only [mkStudent]
      rw [← hsame]
      exact hiff
    · exact hagree st hold c hc

theorem updateStudentRun_consistent (sid : Nat) (d : StudentData) (s : DashState)
    (h : Consistent s) (hvalid : s.students.any (fun st => st.id = sid) = true) :
    Consistent (updateStudentRun sid d s) := by
  cases hfindst : s.students.find? (fun st => st.id = sid) with
  | none =>
      exfalso
      rw [List.find?_eq_none] at hfindst
      rw [List.any_eq_true] at hvalid
      obtain ⟨st, hst, hstid⟩ := hvalid
      exact hfindst st hst hstid
  | some st0 =>
      have hst0 : st0 ∈ s.students := List.mem_of_find?_eq_some hfindst
      have hst0id : st0.id = sid := by simpa using List.find?_some hfindst
      by_cases hsame : st0.classId = d.classId
      · have heq : updateStudentRun sid d s
            = { s with students := updateStudentDoc s.students sid d } := by
          rw [updateStudentRun, hfindst]
          simp only [Option.some_bind]
          rw [if_pos hsame]
        rw [heq]
        exact consistent_same_class s h sid d st0 hst0 hst0id hsame
      · -- the class reference changed: removal step, then append step
        have hremself_none : st0.classId = none →
            ∀ c ∈ s.classes, st0.classId ≠ some c.id := by
          intro hoc c _ hcontra
          rw [hoc] at hcontra
          cases hcontra
        -- the three removal outcomes, as `RemovedFrom` facts plus the
        -- corresponding classes list
        cases hoc : st0.classId with
        | none =>
            have hrem : RemovedFrom s sid s.classes :=
              removedFrom_self s h sid st0 hst0 hst0id (hremself_none hoc)
            cases hnc : d.classId with
            | none =>
                exfalso
                exact hsame (hoc.trans hnc.symm)
            | some ncid =>
                cases hncfind : s.classes.find? (fun cls => cls.id = ncid) with
                | none =>
                    have heq : updateStudentRun sid d s
                        = { students := updateStudentDoc s.students sid d,
                            classes := s.classes, nextId := s.nextId } := by
                      rw [updateStudentRun, hfindst]
                      simp only [Option.some_bind]
                      rw [if_neg hsame, hoc]
                      dsimp only
                      rw [hnc]
                      dsimp only
                      rw [hncfind]
                    rw [heq]
                    refine consistent_after_update s h sid d st0 hst0 hst0id s.classes hrem
                      s.classes (Or.inr (Or.inl ⟨ncid, hnc, ?_, rfl⟩))
                    intro c hc hcontra
                    rw [List.find?_eq_none] at hncfind
                    have := hncfind c hc
                    simp only [decide_eq_true_eq] at this
                    exact this hcontra
                | some newClass =>
                    have hnewmem : newClass ∈ s.classes :=
                      List.mem_of_find?_eq_some hncfind
                    have hnewid : newClass.id = ncid := by
                      simpa using List.find?_some hncfind
                    have heq : updateStudentRun sid d s
                        = { students := updateStudentDoc s.students sid d,
                            classes := updateClassStudentsDoc s.classes ncid
                              (newClass.students ++ [sid]), nextId := s.nextId } := by
                      rw [updateStudentRun, hfindst]
                      simp only [Option.some_bind]
                      rw [if_neg hsame, hoc]
                      dsimp only
                      rw [hnc]
                      dsimp only
                      rw [hncfind]
                    rw [heq]
                    refine consistent_after_update s h sid d st0 hst0 hst0id s.classes hrem
                      _ (Or.inr (Or.inr ⟨ncid, newClass, hnc, hnewmem, hnewid, ?_, rfl⟩))
                    rw [hoc]
                    intro hcontra
                    cases hcontra
        | some ocid =>
            cases hocfind : s.classes.find? (fun cls => cls.id = ocid) with
            | none =>
                have hrem : RemovedFrom s sid s.classes := by
                  apply removedFrom_self s h sid st0 hst0 hst0id
                  intro c hc hcontra
                  rw [hoc] at hcontra
                  injection hcontra with h'
                  rw [List.find?_eq_none] at hocfind
                  have := hocfind c hc
                  simp only [decide_eq_true_eq] at this
                  exact this h'.symm
                cases hnc : d.classId with
                | none =>
                    have heq : updateStudentRun sid d s
                        = { students := updateStudentDoc s.students sid d,
                            classes := s.classes, nextId := s.nextId } := by
                      rw [updateStudentRun, hfindst]
                      simp only [Option.some_bind]
                      rw [if_neg hsame, hoc]
                      dsimp only
                      rw [hocfind]
                      dsimp only
                      rw [hnc]
                    rw [heq]
                    exact consistent_after_update s h sid d st0 hst0 hst0id s.classes hrem
                      s.classes (Or.inl ⟨hnc, rfl⟩)
                | some ncid =>
                    cases hncfind : s.classes.find? (fun cls => cls.id = ncid) with
                    | none =>
                        have heq : updateStudentRun sid d s
                            = { students := updateStudentDoc s.students sid d,
                                classes := s.classes, nextId := s.nextId } := by
                          rw [updateStudentRun, hfindst]
                          simp only [Option.some_bind]
                          rw [if_neg hsame, hoc]
                          dsimp only
                          rw [hocfind]
                          dsimp only
                          rw [hnc]
                          dsimp only
                          rw [hncfind]
                        rw [heq]
                        refine consistent_after_update s h sid d st0 hst0 hst0id s.classes
                          hrem s.classes (Or.inr (Or.inl ⟨ncid, hnc, ?_, rfl⟩))
                        intro c hc hcontra
                        rw [List.find?_eq_none] at hncfind
                        have := hncfind c hc
                        simp only [decide_eq_true_eq] at this
                        exact this hcontra
                    | some newClass =>
                        have hnewmem : newClass ∈ s.classes :=
                          List.mem_of_find?_eq_some hncfind
                        have hnewid : newClass.id = ncid := by
                          simpa using List.find?_some hncfind
                        have heq : updateStudentRun sid d s
                            = { students := updateStudentDoc s.students sid d,
                                classes := updateClassStudentsDoc s.classes ncid
                                  (newClass.students ++ [sid]),
                                nextId := s.nextId } := by
                          rw [updateStudentRun, hfindst]
                          simp only [Option.some_bind]
                          rw [if_neg hsame, hoc]
                          dsimp only
                          rw [hocfind]
                          dsimp only
                          rw [hnc]
                          dsimp only
                          rw [hncfind]
                        rw [heq]
                        refine consistent_after_update s h sid d st0 hst0 hst0id s.classes
                          hrem _ (Or.inr (Or.inr ⟨ncid, newClass, hnc, hnewmem, hnewid,
                            ?_, rfl⟩))
                        intro hcontra
                        exact hsame (hcontra.trans hnc.symm)
            | some oldClass =>
                have holdmem : oldClass ∈ s.classes := List.mem_of_find?_eq_some hocfind
                have holdid : oldClass.id = ocid := by simpa using List.find?_some hocfind
                have hrem : RemovedFrom s sid
                    (updateClassStudentsDoc s.classes ocid
                      ((oldClass.students).filter (fun i => i ≠ sid))) :=
                  removedFrom_filter s h sid st0 hst0 hst0id ocid hoc oldClass holdmem holdid
                cases hnc : d.classId with
                | none =>
                    have heq : updateStudentRun sid d s
                        = { students := updateStudentDoc s.students sid d,
                            classes := updateClassStudentsDoc s.classes ocid
                              ((oldClass.students).filter (fun i => i ≠ sid)),
                            nextId := s.nextId } := by
                      rw [updateStudentRun, hfindst]
                      simp only [Option.some_bind]
                      rw [if_neg hsame, hoc]
                      dsimp only
                      rw [hocfind]
                      dsimp only
                      rw [hnc]
                    rw [heq]
                    exact consistent_after_update s h sid d st0 hst0 hst0id _ hrem _
                      (Or.inl ⟨hnc, rfl⟩)
                | some ncid =>
                    cases hncfind : s.classes.find? (fun cls => cls.id = ncid) with
                    | none =>
                        have heq : updateStudentRun sid d s
                            = { students := updateStudentDoc s.students sid d,
                                classes := updateClassStudentsDoc s.classes ocid
                                  ((oldClass.students).filter (fun i => i ≠ sid)),
                                nextId := s.nextId } := by
                          rw [updateStudentRun, hfindst]
                          simp only [Option.some_bind]
                          rw [if_neg hsame, hoc]
                          dsimp only
                          rw [hocfind]
                          dsimp only
                          rw [hnc]
                          dsimp only
                          rw [hncfind]
                        rw [heq]
                        refine consistent_after_update s h sid d st0 hst0 hst0id _ hrem _
                          (Or.inr (Or.inl ⟨ncid, hnc, ?_, rfl⟩))
                        intro c hc hcontra
                        rw [List.find?_eq_none] at hncfind
                        have := hncfind c hc
                        simp only [decide_eq_true_eq] at this
                        exact this hcontra
                    | some newClass =>
                        have hnewmem : newClass ∈ s.classes :=
                          List.mem_of_find?_eq_some hncfind
                        have hnewid : newClass.id = ncid := by
                          simpa using List.find?_some hncfind
                        have heq : updateStudentRun sid d s
                            = { students := updateStudentDoc s.students sid d,
                                classes := updateClassStudentsDoc
                                  (updateClassStudentsDoc s.classes ocid
                                    ((oldClass.students).filter (fun i => i ≠ sid)))
                                  ncid (newClass.students ++ [sid]),
                                nextId := s.nextId } := by
                          rw [updateStudentRun, hfindst]
                          simp only [Option.some_bind]
                          rw [if_neg hsame, hoc]
                          dsimp only
                          rw [hocfind]
                          dsimp only
                          rw [hnc]
                          dsimp only
                          rw [hncfind]
                        rw [heq]
                        refine consistent_after_update s h sid d st0 hst0 hst0id _ hrem _
                          (Or.inr (Or.inr ⟨ncid, newClass, hnc, hnewmem, hnewid, ?_, rfl⟩))
                        intro hcontra
                        exact hsame (hcontra.trans hnc.symm)

/-! #### `deleteStudent` and `deleteClass` preserve consistency -/

theorem filtered_students_nodup (students : List Student) (sid : Nat)
    (h : (students.map Student.id).Nodup) :
    ((students.filter (fun st => st.id ≠ sid)).map Student.id).Nodup :=
  List.Nodup.sublist (List.Sublist.map Student.id (List.filter_sublist _)) h

theorem mem_of_mem_filter_students {students : List Student} {sid : Nat} {st : Student}
    (h : st ∈ students.filter (fun st => st.id ≠ sid)) : st ∈ students ∧ st.id ≠ sid := by
  rw [List.mem_filter] at h
  simpa using h

theorem filter_students_mem {students : List Student} {sid : Nat} {st : Student}
    (h : st ∈ students) (hne : st.id ≠ sid) :
    st ∈ students.filter (fun st => st.id ≠ sid) := by
  rw [List.mem_filter]
  simpa [hne] using h

theorem deleteStudentRun_consistent (sid : Nat) (s : DashState) (h : Consistent s) :
    Consistent (deleteStudentRun sid s) := by
  obtain ⟨hsid, hcid, hbound, hnodup, hmem, hagree⟩ := h
  cases hfindst : s.students.find? (fun st => st.id = sid) with
  | none =>
      have hnostudent : ∀ st ∈ s.students, st.id ≠ sid := by
        rw [List.find?_eq_none] at hfindst
        intro st hst
        have := hfindst st hst
        simpa using this
      have heq : deleteStudentRun sid s
          = { s with students := s.students.filter (fun st => st.id ≠ sid) } := by
        rw [deleteStudentRun, hfindst]
        simp only [Option.none_bind]
      rw [heq]
      refine ⟨filtered_students_nodup s.students sid hsid, hcid, ?_, hnodup, ?_, ?_⟩
      · intro st hst
        exact hbound st (mem_of_mem_filter_students hst).1
      · intro c hc i hi
        obtain ⟨st, hst, hstid⟩ := hmem c hc i hi
        exact ⟨st, filter_students_mem hst (hstid ▸ hnostudent st hst), hstid⟩
      · intro st hst c hc
        exact hagree st (mem_of_mem_filter_students hst).1 c hc
  | some st0 =>
      have hst0 : st0 ∈ s.students := List.mem_of_find?_eq_some hfindst
      have hst0id : st0.id = sid := by simpa using List.find?_some hfindst
      have huniq : ∀ st ∈ s.students, st.id = sid → st = st0 := by
        intro st hst hid
        exact List.inj_on_of_nodup_map hsid hst hst0 (by rw [hid, hst0id])
      cases hoc : st0.classId with
      | none =>
          have heq : deleteStudentRun sid s
              = { s with students := s.students.filter (fun st => st.id ≠ sid) } := by
            rw [deleteStudentRun, hfindst]
            simp only [Option.some_bind]
            rw [hoc]
          rw [heq]
          refine ⟨filtered_students_nodup s.students sid hsid, hcid, ?_, hnodup, ?_, ?_⟩
          · intro st hst
            exact hbound st (mem_of_mem_filter_students hst).1
          · intro c hc i hi
            obtain ⟨st, hst, hstid⟩ := hmem c hc i hi
            have hne : st.id ≠ sid := by
              intro hcontra
              have := huniq st hst hcontra
              subst this
              have hiff := hagree st hst c hc
              rw [hoc] at hiff
              have : st.id ∈ c.students := hstid ▸ hi
              have := hiff.mpr this
              cases this
            exact ⟨st, filter_students_mem hst hne, hstid⟩
          · intro st hst c hc
            exact hagree st (mem_of_mem_filter_students hst).1 c hc
      | some ocid =>
          cases hocfind : s.classes.find? (fun cls => cls.id = ocid) with
          | none =>
              have hnoclass : ∀ c ∈ s.classes, c.id ≠ ocid := by
                rw [List.find?_eq_none] at hocfind
                intro c hc
                have := hocfind c hc
                simpa using this
              have heq : deleteStudentRun sid s
                  = { s with students := s.students.filter (fun st => st.id ≠ sid) } := by
                rw [deleteStudentRun, hfindst]
                simp only [Option.some_bind]
                rw [hoc]
                dsimp only
                rw [hocfind]
              rw [heq]
              refine ⟨filtered_students_nodup s.students sid hsid, hcid, ?_, hnodup, ?_, ?_⟩
              · intro st hst
                exact hbound st (mem_of_mem_filter_students hst).1
              · intro c hc i hi
                obtain ⟨st, hst, hstid⟩ := hmem c hc i hi
                have hne : st.id ≠ sid := by
                  intro hcontra
                  have := huniq st hst hcontra
                  subst this
                  have hiff := hagree st hst c hc
                  have : st.id ∈ c.students := hstid ▸ hi
                  have h' := hiff.mpr this
                  rw [hoc] at h'
                  injection h' with h''
                  exact hnoclass c hc h''.symm
                exact ⟨st, filter_students_mem hst hne, hstid⟩
              · intro st hst c hc
                exact hagree st (mem_of_mem_filter_students hst).1 c hc
          | some currentClass =>
              have hccmem : currentClass ∈ s.classes := List.mem_of_find?_eq_some hocfind
              have hccid : currentClass.id = ocid := by simpa using List.find?_some hocfind
              have heq : deleteStudentRun sid s
                  = { students := s.students.filter (fun st => st.id ≠ sid),
                      classes := updateClassStudentsDoc s.classes ocid
                        ((currentClass.students).filter (fun i => i ≠ sid)),
                      nextId := s.nextId } := by
                rw [deleteStudentRun, hfindst]
                simp only [Option.some_bind]
                rw [hoc]
                dsimp only
                rw [hocfind]
              rw [heq]
              refine ⟨filtered_students_nodup s.students sid hsid, ?_, ?_, ?_, ?_, ?_⟩
              · rw [updateClassStudentsDoc_ids]
                exact hcid
              · intro st hst
                exact hbound st (mem_of_mem_filter_students hst).1
              · intro c' hc'
                rcases mem_updateClassStudentsDoc hc' with ⟨c0, hc0, hc0id, rfl⟩ | ⟨hold, _⟩
                · exact List.Nodup.filter _ (hnodup currentClass hccmem)
                · exact hnodup c' hold
              · intro c' hc' i hi
                rcases mem_updateClassStudentsDoc hc' with ⟨c0, hc0, hc0id, rfl⟩ | ⟨hold, hnec⟩
                · simp only [List.mem_filter, decide_eq_true_eq] at hi
                  obtain ⟨st, hst, hstid⟩ := hmem currentClass hccmem i hi.1
                  exact ⟨st, filter_students_mem hst (by rw [hstid]; exact hi.2), hstid⟩
                · obtain ⟨st, hst, hstid⟩ := hmem c' hold i hi
                  have hne : st.id ≠ sid := by
                    intro hcontra
                    have := huniq st hst hcontra
                    subst this
                    have hiff := hagree st hst c' hold
                    have : st.id ∈ c'.students := hstid ▸ hi
                    have h' := hiff.mpr this
                    rw [hoc] at h'
                    injection h' with h''
                    exact hnec h''.symm
                  exact ⟨st, filter_students_mem hst hne, hstid⟩
              · intro st hst c' hc'
                obtain ⟨hstmem, hstne⟩ := mem_of_mem_filter_students hst
                rcases mem_updateClassStudentsDoc hc' with ⟨c0, hc0, hc0id, rfl⟩ | ⟨hold, _⟩
                · have hiff := hagree st hstmem currentClass hccmem
                  simp only [List.mem_filter, decide_eq_true_eq]
                  constructor
                  · intro hcl
                    refine ⟨hiff.mp ?_, hstne⟩
                    rw [hcl]
                    rw [hccid, hc0id]
                  · intro hin
                    have := hiff.mpr hin.1
                    rw [this, hccid, hc0id]
                · exact hagree st hstmem c' hold

theorem clearClassRefs_ids (cid : Nat) (students : List Student) :
    (clearClassRefs cid students).map Student.id = students.map Student.id := by
  rw [clearClassRefs, List.map_map]
  apply List.map_congr_left
  intro st _
  by_cases h : st.classId = some cid <;> simp [h]

theorem mem_clearClassRefs {cid : Nat} {students : List Student} {st : Student}
    (h : st ∈ clearClassRefs cid students) :
    (∃ st0 ∈ students, st0.classId = some cid ∧ st = { st0 with classId := none })
      ∨ (st ∈ students ∧ st.classId ≠ some cid) := by
  rw [clearClassRefs, List.mem_map] at h
  obtain ⟨st0, hst0, heq⟩ := h
  by_cases hid : st0.classId = some cid
  · rw [if_pos hid] at heq
    exact Or.inl ⟨st0, hst0, hid, heq.symm⟩
  · rw [if_neg hid] at heq
    subst heq
    exact Or.inr ⟨hst0, hid⟩

theorem clearClassRefs_exists_id {cid : Nat} {students : List Student} {i : Nat}
    (h : ∃ st ∈ students, st.id = i) :
    ∃ st' ∈ clearClassRefs cid students, st'.id = i := by
  obtain ⟨st, hst, hid⟩ := h
  rw [clearClassRefs]
  refine ⟨_, List.mem_map_of_mem _ hst, ?_⟩
  by_cases hh : st.classId = some cid <;> simp [hh, hid]

theorem mem_deleteClassDocRun {cid : Nat} {classes : List ClassDoc} {c : ClassDoc}
    (h : c ∈ deleteClassDocRun cid classes) : c ∈ classes ∧ c.id ≠ cid := by
  rw [deleteClassDocRun, List.mem_filter] at h
  simpa using h

theorem deleteClassRun_consistent (cid : Nat) (s : DashState) (h : Consistent s) :
    Consistent (deleteClassRun cid s) := by
  obtain ⟨hsid, hcid, hbound, hnodup, hmem, hagree⟩ := h
  have heq : deleteClassRun cid s
      = { students := clearClassRefs cid s.students,
          classes := deleteClassDocRun cid s.classes, nextId := s.nextId } := rfl
  rw [heq]
  refine ⟨by rw [clearClassRefs_ids]; exact hsid, ?_, ?_, ?_, ?_, ?_⟩
  · exact List.Nodup.sublist
      (List.Sublist.map ClassDoc.id (List.filter_sublist _)) hcid
  · intro st hst
    rcases mem_clearClassRefs hst with ⟨st0, hst0, _, rfl⟩ | ⟨hold, _⟩
    · exact hbound st0 hst0
    · exact hbound st hold
  · intro c hc
    exact hnodup c (mem_deleteClassDocRun hc).1
  · intro c hc i hi
    exact clearClassRefs_exists_id (hmem c (mem_deleteClassDocRun hc).1 i hi)
  · intro st hst c hc
    obtain ⟨hcmem, hcne⟩ := mem_deleteClassDocRun hc
    rcases mem_clearClassRefs hst with ⟨st0, hst0, hst0cl, rfl⟩ | ⟨hold, _⟩
    · constructor
      · intro hcl
        cases hcl
      · intro hin
        exfalso
        have hiff := hagree st0 hst0 c hcmem
        have h' := hiff.mpr hin
        rw [hst0cl] at h'
        injection h' with h''
        exact hcne h''.symm
    · exact hagree st hold c hcmem

/-! #### Sequences of operations -/

theorem runOp_consistent (s : DashState) (op : Op) (h : Consistent s)
    (hv : validOp s op = true) : Consistent (runOp s op) := by
  cases op with
  | addStudent d => exact addStudentRun_consistent d s h
  | updateStudent i d =>
      exact updateStudentRun_consistent i d s h (by simpa [validOp] using hv)
  | deleteStudent i => exact deleteStudentRun_consistent i s h
  | deleteClass i => exact deleteClassRun_consistent i s h

theorem runOps_consistent (ops : List Op) : ∀ (s : DashState), Consistent s →
    validOps s ops = true → Consistent (runOps s ops) := by
  induction ops with
  | nil => intro s h _; exact h
  | cons op rest ih =>
      intro s h hv
      rw [validOps, Bool.and_eq_true] at hv
      rw [runOps]
      exact ih (runOp s op) (runOp_consistent s op h hv.1) hv.2

/-- Claim C1: starting from a consistent state, after any UI-reachable
sequence of the student-path operations (`addStudent`, `updateStudent`,
`deleteStudent`, and `deleteClass`), every student's `classId` and every
class's roster agree: `st.classId = some c.id` iff `c.students` contains
`st.id`, for every student and class present in the collections. -/
theorem studentPath_agreement (s : DashState) (ops : List Op)
    (hcons : Consistent s) (hvalid : validOps s ops = true) :
    Agrees (runOps s ops) :=
  (runOps_consistent ops s hcons hvalid).2.2.2.2.2

/-- Witness for claim C1: a concrete consistent state and operation sequence
(add a student into class 5, move them out, delete them). -/
theorem studentPath_agreement_witness :
    (Consistent sampleState ∧ validOps sampleState sampleOps = true)
      ∧ Agrees (runOps sampleState sampleOps) :=
  ⟨⟨by decide, by decide⟩,
   studentPath_agreement sampleState sampleOps (by decide) (by decide)⟩

/-- Claim C10: starting from a consistent state, after any UI-reachable
sequence consisting only of the three student-path operations `addStudent`,
`updateStudent` and `deleteStudent`, every class's roster contains each
student id at most once — the unguarded append in `updateStudent` never
introduces a duplicate. -/
theorem studentPath_rosters_nodup (s : DashState) (ops : List Op)
    (hcons : Consistent s) (hvalid : validOps s ops = true)
    (hpath : ∀ op ∈ ops, isStudentOp op = true) :
    ∀ c ∈ (runOps s ops).classes, c.students.Nodup :=
  (runOps_consistent ops s hcons hvalid).2.2.2.1

/-- Witness for claim C10: the concrete sequence of witness C1 uses only the
three student-path operations. -/
theorem studentPath_rosters_nodup_witness :
    (Consistent sampleState ∧ validOps sampleState sampleOps = true
        ∧ ∀ op ∈ sampleOps, isStudentOp op = true)
      ∧ ∀ c ∈ (runOps sampleState sampleOps).classes, c.students.Nodup :=
  ⟨⟨by decide, by decide, by decide⟩,
   studentPath_rosters_nodup sampleState sampleOps (by decide) (by decide) (by decide)⟩

end Dashboard
